import Mathlib

/-!
Verification of the cgos kernel core against its design specification.

This file contains a shallow embedding, in Lean 4, of the parts of the
cgos kernel (a small x86_64 hobby kernel written in C) that the checked
claims talk about: the PS/2 keyboard ring buffer, the E1000 transmit path,
the PIT timer interrupt and scheduler tick, the FAT16 filesystem
(mount, read, write), the ICMP layer, the IP send path with ARP
resolution, the virtual memory manager page walker, and the page fault
handler.  Pure C functions become Lean functions; global C state becomes
explicit state records that the functions transform.  Machine integers
are modelled as Nat with explicit reductions modulo 2^w wherever the C
code can wrap.  I/O port writes and transmitted frames are modelled as
event logs appended to the state.  Each embedded definition keeps the
name of the C function it was translated from.
-/

set_option maxRecDepth 10000

namespace Cgos

/-! ## Keyboard driver ring buffer (src/drivers/keyboard.c)

The keyboard driver keeps a 64-entry circular character buffer with a
head index (producer, the IRQ handler) and a tail index (consumer).
`KEY_BUFFER_SIZE` is 64 (src/drivers/keyboard.h). -/

def KEY_BUFFER_SIZE : Nat := 64

/-- State of the keyboard ring buffer: the `key_buffer` array (modelled as
an index-to-byte function), `buffer_head` and `buffer_tail`. -/
structure KeyboardState where
  buf : Nat → Nat
  head : Nat
  tail : Nat

/-- Embedding of `buffer_put` (src/drivers/keyboard.c:37).  Computes
`next = (head + 1) % KEY_BUFFER_SIZE`; when `next != tail` it stores the
character at `head` and advances `head`, otherwise it drops the
character and leaves everything unchanged. -/
def buffer_put (s : KeyboardState) (c : Nat) : KeyboardState :=
  let next := (s.head + 1) % KEY_BUFFER_SIZE
  if next ≠ s.tail then
    { s with buf := fun i => if i = s.head then c else s.buf i, head := next }
  else
    s

/-- Number of characters pending in the ring: distance from tail to head
modulo the ring size. -/
def kbdPending (s : KeyboardState) : Nat :=
  (s.head + KEY_BUFFER_SIZE - s.tail) % KEY_BUFFER_SIZE

/-! ## E1000 transmit path (src/drivers/e1000.c) -/

def E1000_BUFFER_SIZE : Nat := 2048
def E1000_NUM_TX_DESC : Nat := 32
def E1000_TXD_STAT_DD : Nat := 0x01
def E1000_TXD_CMD_EOP : Nat := 0x01
def E1000_TXD_CMD_IFCS : Nat := 0x02
def E1000_TXD_CMD_RS : Nat := 0x08
def E1000_TDT : Nat := 0x03818

/-- One legacy TX descriptor (`e1000_tx_desc_t`, src/drivers/e1000.h). -/
structure TxDesc where
  buffer_addr : Nat
  length : Nat
  cso : Nat
  cmd : Nat
  status : Nat
  css : Nat
  special : Nat

/-- The E1000 driver state that `e1000_send_packet` touches: the global
`e1000_initialized` flag, the TX descriptor ring, the parallel array of
TX packet buffers (each buffer is a byte array, modelled as an
offset-to-byte function), the TX cursor `tx_cur`, and a log of the MMIO
register writes the driver performs (register offset, value). -/
structure E1000State where
  initialized : Bool
  txDesc : Nat → TxDesc
  txBuffers : Nat → Nat → Nat
  txCur : Nat
  regWrites : List (Nat × Nat)

/-- Embedding of `e1000_send_packet` (src/drivers/e1000.c:269).  The data
pointer/length pair becomes a byte list whose length is `len`; the C
NULL-pointer check has no separate counterpart.  Returns the C `int`
result (`-1` for failure, `len` on success) together with the new driver
state. -/
def e1000_send_packet (s : E1000State) (data : List Nat) : Int × E1000State :=
  if ¬ s.initialized ∨ data.length = 0 ∨ data.length > E1000_BUFFER_SIZE then
    (-1, s)
  else if (s.txDesc s.txCur).status &&& E1000_TXD_STAT_DD = 0 then
    (-1, s)
  else
    let cur := s.txCur
    let newBuf : Nat → Nat := fun o => if o < data.length then data.getD o 0 else s.txBuffers cur o
    let d1 : TxDesc :=
      { s.txDesc cur with
        length := data.length
        cmd := E1000_TXD_CMD_EOP ||| E1000_TXD_CMD_IFCS ||| E1000_TXD_CMD_RS
        status := 0 }
    let newCur := (cur + 1) % E1000_NUM_TX_DESC
    ((data.length : Int),
      { s with
        txBuffers := fun i => if i = cur then newBuf else s.txBuffers i
        txDesc := fun i => if i = cur then d1 else s.txDesc i
        txCur := newCur
        regWrites := s.regWrites ++ [(E1000_TDT, newCur)] })

end Cgos

namespace Cgos

/-! ## Scheduler (src/sched/scheduler.c, src/sched/thread.h) -/

def PRIORITY_REALTIME : Nat := 0
def PRIORITY_LOW : Nat := 5
def PRIORITY_IDLE : Nat := 6
def PRIORITY_LEVELS : Nat := 7
def TIME_SLICE_BASE_MS : Nat := 10
def CPU_HISTORY_SAMPLES : Nat := 8
def PRIORITY_BOOST_THRESHOLD : Nat := 30
def PRIORITY_DEMOTE_THRESHOLD : Nat := 80

/-- Thread states (`thread_state_t`, src/sched/thread.h). -/
inductive ThreadSt where
  | created
  | ready
  | running
  | blocked
  | sleeping
  | terminated
deriving DecidableEq

/-- The scheduling-relevant fields of the thread control block
(`struct thread`, src/sched/thread.h). -/
structure Thread where
  tid : Nat
  state : ThreadSt
  kernel_stack_base : Nat
  kernel_stack_size : Nat
  priority : Nat
  base_priority : Nat
  time_slice : Nat
  time_slice_length : Nat
  total_ticks : Nat
  cpu_usage_history : List Nat
  history_index : Nat
  avg_cpu_usage : Nat
  slice_start_ticks : Nat
  ticks_used_this_slice : Nat
  wake_time : Nat

/-- Global scheduler state (the file-scope variables of
src/sched/scheduler.c).  Threads are stored by TID; the intrusive
doubly-linked ready queues and the singly-linked sleep queue become TID
lists.  The TSS RSP0 written by `gdt_set_kernel_stack` is recorded as a
plain field. -/
structure SchedState where
  threads : Nat → Thread
  readyQueues : Nat → List Nat
  sleepQueue : List Nat
  currentThread : Option Nat
  idleThread : Nat
  schedulerRunning : Bool
  statsTotalSwitches : Nat
  statsThreadsReady : Nat
  statsThreadsSleeping : Nat
  statsIdleTicks : Nat
  statsPriorityBoosts : Nat
  statsPriorityDemotions : Nat
  tssRsp0 : Nat

/-- Helper: update the TCB of one thread in place. -/
def setThread (st : SchedState) (tid : Nat) (f : Thread → Thread) : SchedState :=
  { st with threads := fun i => if i = tid then f (st.threads i) else st.threads i }

/-- Embedding of `enqueue_ready` (src/sched/scheduler.c:38): append the
thread at the tail of the ready queue of its current priority, set its
state to READY and bump the ready count. -/
def enqueue_ready (st : SchedState) (tid : Nat) : SchedState :=
  let p := (st.threads tid).priority
  let st1 := setThread st tid (fun t => { t with state := ThreadSt.ready })
  { st1 with
    readyQueues := fun q => if q = p then st1.readyQueues q ++ [tid] else st1.readyQueues q
    statsThreadsReady := st1.statsThreadsReady + 1 }

/-- Embedding of `dequeue_ready` (src/sched/scheduler.c:55): pop the head
of the given priority queue (none when empty). -/
def dequeue_ready (st : SchedState) (p : Nat) : Option Nat × SchedState :=
  match st.readyQueues p with
  | [] => (none, st)
  | tid :: rest =>
    (some tid,
      { st with
        readyQueues := fun q => if q = p then rest else st.readyQueues q
        statsThreadsReady := st.statsThreadsReady - 1 })

/-- Embedding of `pick_next_thread` (src/sched/scheduler.c:170): dequeue
from the lowest-index non-empty ready queue; fall back to the idle
thread when every queue is empty. -/
def pick_next_thread (st : SchedState) : Nat × SchedState :=
  match (List.range PRIORITY_LEVELS).find? (fun p => ¬ (st.readyQueues p).isEmpty) with
  | some p =>
    match dequeue_ready st p with
    | (some tid, st1) => (tid, st1)
    | (none, st1) => (st1.idleThread, st1)
  | none => (st.idleThread, st)

/-- Embedding of `wake_expired_sleepers` (src/sched/scheduler.c:183):
move every sleep-queue head whose wake time has passed to its ready
queue.  The C while loop becomes structural recursion on the sleep
queue. -/
def wake_expired_sleepers (now : Nat) (st : SchedState) (fuel : Nat) : SchedState :=
  match fuel with
  | 0 => st
  | fuel + 1 =>
    match st.sleepQueue with
    | [] => st
    | tid :: rest =>
      if (st.threads tid).wake_time ≤ now then
        let st1 := { st with sleepQueue := rest,
                             statsThreadsSleeping := st.statsThreadsSleeping - 1 }
        wake_expired_sleepers now (enqueue_ready st1 tid) fuel
      else st

/-- Embedding of `switch_to` (src/sched/scheduler.c:198): make `next` the
current running thread, update the TSS kernel stack, reset its time
slice and slice bookkeeping, and count the switch.  The trailing
`context_switch` is pure register save/restore assembly with no effect
on this state. -/
def switch_to (now : Nat) (st : SchedState) (next : Nat) : SchedState :=
  if st.currentThread = some next then st
  else
    let st1 := { st with currentThread := some next }
    let st2 := setThread st1 next (fun t => { t with state := ThreadSt.running })
    let t := st2.threads next
    let st3 := { st2 with tssRsp0 := t.kernel_stack_base + t.kernel_stack_size }
    let st4 := setThread st3 next (fun t =>
      { t with time_slice := t.time_slice_length
               slice_start_ticks := now
               ticks_used_this_slice := 0 })
    { st4 with statsTotalSwitches := st4.statsTotalSwitches + 1 }

/-- Embedding of `schedule` (src/sched/scheduler.c:223). -/
def schedule (now : Nat) (st : SchedState) : SchedState :=
  match pick_next_thread st with
  | (next, st1) => if some next ≠ st1.currentThread then switch_to now st1 next else st1

/-- Embedding of `update_cpu_usage` (src/sched/scheduler.c:118): store
the sample in the 8-entry ring and recompute the moving average. -/
def update_cpu_usage (st : SchedState) (tid : Nat) (usage : Nat) : SchedState :=
  setThread st tid (fun t =>
    let h1 := t.cpu_usage_history.set t.history_index usage
    let sum := ((List.range CPU_HISTORY_SAMPLES).map (fun i => h1.getD i 0)).sum
    { t with cpu_usage_history := h1
             history_index := (t.history_index + 1) % CPU_HISTORY_SAMPLES
             avg_cpu_usage := sum / CPU_HISTORY_SAMPLES })

/-- Embedding of `adjust_priority` (src/sched/scheduler.c:131): demote
one level towards PRIORITY_LOW when the average CPU usage exceeds 80,
boost one level towards the base priority when it is below 30; idle and
realtime threads are never adjusted; recompute the slice length when the
priority changed. -/
def adjust_priority (st : SchedState) (tid : Nat) : SchedState :=
  let t := st.threads tid
  if tid = st.idleThread ∨ t.base_priority = PRIORITY_REALTIME then st
  else
    let newPrio :=
      if t.avg_cpu_usage > PRIORITY_DEMOTE_THRESHOLD then
        if t.priority < PRIORITY_LOW then t.priority + 1 else t.priority
      else if t.avg_cpu_usage < PRIORITY_BOOST_THRESHOLD then
        if t.priority > t.base_priority then t.priority - 1 else t.priority
      else t.priority
    let st1 :=
      if t.avg_cpu_usage > PRIORITY_DEMOTE_THRESHOLD ∧ t.priority < PRIORITY_LOW then
        { st with statsPriorityDemotions := st.statsPriorityDemotions + 1 }
      else if ¬ (t.avg_cpu_usage > PRIORITY_DEMOTE_THRESHOLD) ∧
              t.avg_cpu_usage < PRIORITY_BOOST_THRESHOLD ∧ t.priority > t.base_priority then
        { st with statsPriorityBoosts := st.statsPriorityBoosts + 1 }
      else st
    setThread st1 tid (fun t1 =>
      let t2 := { t1 with priority := newPrio }
      if t2.priority ≠ t.priority then
        { t2 with time_slice_length := TIME_SLICE_BASE_MS + (PRIORITY_LEVELS - t2.priority) * 3 }
      else t2)

/-- Embedding of `scheduler_tick` (src/sched/scheduler.c:298).  `now` is
the value the embedded `timer_get_ticks()` returns during this call.
The C assignment `uint8_t usage = (ticks*100)/len` truncates to 8 bits
before the cap at 100, which the model reproduces. -/
def scheduler_tick (now : Nat) (st : SchedState) : SchedState :=
  if ¬ st.schedulerRunning then st
  else
    match st.currentThread with
    | none => st
    | some cur =>
      let st1 := if cur = st.idleThread
                 then { st with statsIdleTicks := (st.statsIdleTicks + 1) % 2 ^ 64 }
                 else st
      let st2 := wake_expired_sleepers now st1 st1.sleepQueue.length
      let st3 := setThread st2 cur (fun t =>
        { t with total_ticks := (t.total_ticks + 1) % 2 ^ 64
                 ticks_used_this_slice := (t.ticks_used_this_slice + 1) % 2 ^ 64 })
      let st4 := setThread st3 cur (fun t =>
        if t.time_slice > 0 then { t with time_slice := t.time_slice - 1 } else t)
      if (st4.threads cur).time_slice = 0 ∧ cur ≠ st4.idleThread then
        let t := st4.threads cur
        let u0 := (t.ticks_used_this_slice * 100 / t.time_slice_length) % 256
        let usage := if u0 > 100 then 100 else u0
        let st5 := update_cpu_usage st4 cur usage
        let st6 := adjust_priority st5 cur
        let st7 := enqueue_ready st6 cur
        schedule now st7
      else st4

/-! ## PIT timer interrupt (src/timer/timer.c) -/

def PIC1_COMMAND : Nat := 0x20
def PIC_EOI : Nat := 0x20

/-- Kernel state seen by the timer interrupt path: the 64-bit `ticks`
counter of src/timer/timer.c, a log of the `outb` port writes performed
(port, value), and the scheduler state. -/
structure KernelState where
  ticks : Nat
  portWrites : List (Nat × Nat)
  sched : SchedState

/-- Embedding of `timer_irq_handler` (src/timer/timer.c:88): increment
the 64-bit tick counter and write the EOI command to the master PIC
command port. -/
def timer_irq_handler (s : KernelState) : KernelState :=
  { s with ticks := (s.ticks + 1) % 2 ^ 64
           portWrites := s.portWrites ++ [(PIC1_COMMAND, PIC_EOI)] }

/-- Modelled from the spec: the IRQ0 assembly interrupt stub (declared as
`irq_handler_0` in src/interrupt/interrupt.h but implemented in assembly
that is not under src/).  Per the specification of the PIT handler it
invokes the C `timer_irq_handler` and then `scheduler_tick` (whose
header comment reads "Called from timer interrupt every tick");
`scheduler_tick` reads the post-increment tick count through
`timer_get_ticks()`. -/
def pit_interrupt (s : KernelState) : KernelState :=
  let s1 := timer_irq_handler s
  { s1 with sched := scheduler_tick s1.ticks s1.sched }

end Cgos

namespace Cgos

/-! ## ICMP (src/network/icmp.c)

ICMP messages are modelled as byte lists laid out exactly as the packed
`icmp_packet_t` sits in memory (which is also the wire layout): type,
code, checksum (2 bytes), identifier (2 bytes), sequence (2 bytes),
payload.  Multi-byte loads/stores through `uint16_t` fields are
little-endian, and the code stores network-order values into them via
`__builtin_bswap16`. -/

def ICMP_ECHO_REPLY : Nat := 0
def ICMP_ECHO_REQUEST : Nat := 8
def NET_SUCCESS : Int := 0
def NET_ERROR : Int := -1
def NET_TIMEOUT : Int := -2
def NET_INVALID_PARAM : Int := -4

/-- Byte swap of a 16-bit value (`__builtin_bswap16`). -/
def bswap16 (v : Nat) : Nat := (v % 256) * 256 + (v / 256 % 256)

/-- Little-endian 16-bit load from byte offset `o`, as a `uint16_t`
field read. -/
def rd16 (b : List Nat) (o : Nat) : Nat := (b.getD o 0 + 256 * b.getD (o + 1) 0) % 65536

/-- Folding of the carries in a one's-complement sum: the C loop
`while (sum >> 16) sum = (sum & 0xFFFF) + (sum >> 16);`.  The loop
always terminates within a few iterations; 32 rounds of fuel cover any
sum below 2^64. -/
def ones_fold (fuel : Nat) (sum : Nat) : Nat :=
  match fuel with
  | 0 => sum
  | fuel + 1 => if sum ≥ 65536 then ones_fold fuel (sum % 65536 + sum / 65536) else sum

/-- Embedding of `icmp_checksum` (src/network/icmp.c:153): sum the
16-bit little-endian words of the first `len` bytes, add the odd
trailing byte shifted left by 8 if `len` is odd, fold the carries, and
return the 16-bit complement. -/
def icmp_checksum (b : List Nat) (len : Nat) : Nat :=
  let words := (List.range (len / 2)).map (fun i => b.getD (2 * i) 0 + 256 * b.getD (2 * i + 1) 0)
  let sum0 := words.sum
  let sum1 := if len % 2 = 1 then sum0 + b.getD (len - 1) 0 * 256 else sum0
  65535 - ones_fold 32 sum1

/-- Embedding of `icmp_send_echo_reply` (src/network/icmp.c:48) up to
the hand-off to `ip_send_packet`: the ICMP echo-reply message that gets
built and emitted.  The payload pointer is the (never NULL)
`packet->payload` member, so the C guard `data && data_len > 0` reduces
to `data_len > 0`.  The message is `sizeof(icmp_header_t) + payload_len`
bytes long. -/
def icmp_send_echo_reply_msg (identifier sequence : Nat) (data : List Nat)
    (dataLen : Nat) : List Nat :=
  let payloadLen := if dataLen > 0 then min dataLen 1472 else 0
  let payload := (List.range payloadLen).map (fun i => data.getD i 0)
  let idw := bswap16 (identifier % 65536)
  let seqw := bswap16 (sequence % 65536)
  let base := [0, 0, 0, 0, idw % 256, idw / 256, seqw % 256, seqw / 256] ++ payload
  let ck := icmp_checksum base (8 + payloadLen)
  [0, 0, ck % 256, ck / 256, idw % 256, idw / 256, seqw % 256, seqw / 256] ++ payload

/-- Result of processing one received ICMP message: drop it, emit an
echo reply towards `dest`, record a received echo reply (the
`ping_reply_*` globals), or just log (destination unreachable and
unknown types). -/
inductive IcmpAction where
  | drop
  | reply (dest : Nat) (msg : List Nat)
  | recordEchoReply (src : Nat) (seq : Nat)
  | log
deriving DecidableEq

/-- Embedding of `icmp_process_packet` (src/network/icmp.c:101).  The
code zeroes the 16-bit checksum field in place and recomputes the
checksum over `sizeof(icmp_header_t)` = 8 bytes (the header only); a
mismatch with the stored value drops the packet.  An echo request is
answered through `icmp_send_echo_reply(iface, src_ip, id, seq,
packet->payload, 0)` — note the data length 0. -/
def icmp_process_packet (src_ip : Nat) (msg : List Nat) : IcmpAction :=
  let original := rd16 msg 2
  let zeroed := (msg.set 2 0).set 3 0
  let calcCk := icmp_checksum zeroed 8
  if original ≠ calcCk then IcmpAction.drop
  else
    let ptype := msg.getD 0 0
    if ptype = ICMP_ECHO_REQUEST then
      let identifier := bswap16 (rd16 msg 4)
      let sequence := bswap16 (rd16 msg 6)
      IcmpAction.reply src_ip (icmp_send_echo_reply_msg identifier sequence (msg.drop 8) 0)
    else if ptype = ICMP_ECHO_REPLY then
      IcmpAction.recordEchoReply src_ip (bswap16 (rd16 msg 6))
    else IcmpAction.log

/-- Outcome of one iteration of the `icmp_ping` loop, seen from the
loop body: whether `icmp_send_echo_request` returned `NET_SUCCESS`, and,
if the concurrent packet processing set `ping_reply_received` before the
one-second timeout, the recorded reply source IP together with the
computed 32-bit round-trip time `(uint32_t)(ping_reply_time -
ping_send_time)`.  This oracle stands for the busy-wait poll loop, whose
exit state is determined by the network environment. -/
structure PingProbe where
  sendOk : Bool
  reply : Option (Nat × Nat)

/-- The `ping_result_t` record filled in by `icmp_ping` (fields as used
in src/network/icmp.c: `sent`, `received`, `min_time`, `max_time`,
`total_time`). -/
structure PingResult where
  sent : Nat
  received : Nat
  min_time : Nat
  max_time : Nat
  total_time : Nat
deriving DecidableEq

/-- One iteration of the `icmp_ping` loop body
(src/network/icmp.c:189-215) acting on the accumulated result. -/
def icmp_ping_step (dest : Nat) (r : PingResult) (pr : PingProbe) : PingResult :=
  if ¬ pr.sendOk then r
  else
    let r1 := { r with sent := r.sent + 1 }
    match pr.reply with
    | none => r1
    | some (src, rtt) =>
      if src = dest then
        { r1 with
          received := r1.received + 1
          total_time := (r1.total_time + rtt) % 2 ^ 32
          min_time := if rtt < r1.min_time then rtt else r1.min_time
          max_time := if rtt > r1.max_time then rtt else r1.max_time }
      else r1

/-- Embedding of `icmp_ping` (src/network/icmp.c:176): initialise the
result record (`min_time = 0xFFFFFFFF`, everything else 0) and run the
loop once per requested probe. -/
def icmp_ping (dest : Nat) (probes : List PingProbe) : PingResult :=
  probes.foldl (icmp_ping_step dest) ⟨0, 0, 0xFFFFFFFF, 0, 0⟩

end Cgos

namespace Cgos

/-! ## Ethernet, ARP, and the IP send path (src/network/ethernet.c,
src/network/arp.c, src/network/ip.c)

Transmitted Ethernet frames are modelled as an append-only log;
`network_send_raw` and the driver below it are cut off at that log (an
active interface with a send hook makes `network_send_raw` return
`NET_SUCCESS`). -/

def ETH_TYPE_IP : Nat := 0x0800
def ETH_TYPE_ARP : Nat := 0x0806
def ETH_HLEN : Nat := 14
def ETH_ZLEN : Nat := 60
def ETH_FRAME_LEN : Nat := 1514
def IP_PACKET_SIZE : Nat := 1500
def IP_HEADER_LEN : Nat := 20
def ARP_REQUEST : Nat := 1
def ARP_REPLY : Nat := 2
def ARP_TABLE_SIZE : Nat := 128

/-- Byte swap of a 32-bit value (`__builtin_bswap32`). -/
def bswap32 (v : Nat) : Nat :=
  (v % 256) * 16777216 + (v / 256 % 256) * 65536 + (v / 65536 % 256) * 256 +
    v / 16777216 % 256

/-- Big-endian byte pair of a 16-bit value (how a value stored through
`__builtin_bswap16` into a little-endian `uint16_t` field appears on the
wire). -/
def be16 (v : Nat) : List Nat := [v / 256 % 256, v % 256]

/-- Big-endian byte quadruple of a 32-bit value. -/
def be32 (v : Nat) : List Nat :=
  [v / 16777216 % 256, v / 65536 % 256, v / 256 % 256, v % 256]

/-- One ARP cache record (`arp_entry_t`). -/
structure ArpEntry where
  ip : Nat
  mac : List Nat
  timestamp : Nat
  valid : Bool

/-- A network interface (`network_interface_t`): the fields the embedded
paths read. -/
structure NetIface where
  mac : List Nat
  ip : Nat
  subnet_mask : Nat
  gateway : Nat

/-- One transmitted Ethernet frame: destination MAC, ethertype (host
order, as passed to `ethernet_send_frame`), and the padded payload. -/
structure Frame where
  destMac : List Nat
  ethertype : Nat
  payload : List Nat

/-- Network-stack state: the 128-entry ARP table with its entry counter
(src/network/arp.c), the IP identification counter (src/network/ip.c),
and the log of frames handed to the driver. -/
structure NetState where
  arpTable : Nat → ArpEntry
  arpTableEntries : Nat
  ipIdent : Nat
  frames : List Frame

/-- Embedding of `ethernet_send_frame` (src/network/ethernet.c:10):
reject an empty or over-long payload, pad the frame to the 60-byte
minimum, and hand it to `network_send_raw` (modelled as appending to
the frame log and returning `NET_SUCCESS`, the result for an active
interface). -/
def ethernet_send_frame (s : NetState) (iface : NetIface) (destMac : List Nat)
    (ethertype : Nat) (payload : List Nat) : Int × NetState :=
  if payload = [] then (NET_INVALID_PARAM, s)
  else if payload.length > ETH_FRAME_LEN - ETH_HLEN then (NET_ERROR, s)
  else
    let padded := if ETH_HLEN + payload.length < ETH_ZLEN then
        payload ++ List.replicate (ETH_ZLEN - (ETH_HLEN + payload.length)) 0
      else payload
    (NET_SUCCESS, { s with frames := s.frames ++ [⟨destMac, ethertype, padded⟩] })

/-- Embedding of `arp_lookup` (src/network/arp.c:97): linear scan for a
valid entry with the given IP; returns its MAC. -/
def arp_lookup (s : NetState) (ip : Nat) : Option (List Nat) :=
  (List.range ARP_TABLE_SIZE).findSome? fun i =>
    let e := s.arpTable i
    if e.valid ∧ e.ip = ip then some e.mac else none

/-- The wire bytes of the ARP request built by `arp_send_request`
(src/network/arp.c:27): hardware type 1, protocol 0x0800, lengths 6/4,
opcode 1, sender MAC/IP from the interface, zero target MAC, target
IP. -/
def arp_request_payload (iface : NetIface) (target_ip : Nat) : List Nat :=
  [0, 1, 8, 0, 6, 4, 0, 1] ++ (List.range 6).map (fun i => iface.mac.getD i 0) ++
    be32 (iface.ip % 2 ^ 32) ++ [0, 0, 0, 0, 0, 0] ++ be32 (target_ip % 2 ^ 32)

/-- Embedding of `arp_send_request` (src/network/arp.c:27): broadcast
the request frame. -/
def arp_send_request (s : NetState) (iface : NetIface) (target_ip : Nat) :
    Int × NetState :=
  ethernet_send_frame s iface [255, 255, 255, 255, 255, 255] ETH_TYPE_ARP
    (arp_request_payload iface target_ip)

/-- The wire bytes of the ARP reply built by `arp_send_reply`
(src/network/arp.c:52). -/
def arp_reply_payload (iface : NetIface) (target_ip : Nat) (target_mac : List Nat) :
    List Nat :=
  [0, 1, 8, 0, 6, 4, 0, 2] ++ (List.range 6).map (fun i => iface.mac.getD i 0) ++
    be32 (iface.ip % 2 ^ 32) ++ (List.range 6).map (fun i => target_mac.getD i 0) ++
    be32 (target_ip % 2 ^ 32)

/-- Embedding of `arp_send_reply` (src/network/arp.c:52). -/
def arp_send_reply (s : NetState) (iface : NetIface) (target_ip : Nat)
    (target_mac : List Nat) : Int × NetState :=
  ethernet_send_frame s iface target_mac ETH_TYPE_ARP
    (arp_reply_payload iface target_ip target_mac)

/-- The slot-selection scan of `arp_add_entry` (src/network/arp.c:117):
first invalid slot, otherwise the least-recently-stamped slot (starting
from `oldest_time = now`). -/
def arp_find_slot (s : NetState) (i fuel : Nat) (slot : Option Nat) (oldest : Nat) :
    Option Nat :=
  match fuel with
  | 0 => slot
  | fuel + 1 =>
    let e := s.arpTable i
    if ¬ e.valid then some i
    else if e.timestamp < oldest then arp_find_slot s (i + 1) fuel (some i) e.timestamp
    else arp_find_slot s (i + 1) fuel slot oldest

/-- Embedding of `arp_add_entry` (src/network/arp.c:111). -/
def arp_add_entry (now : Nat) (s : NetState) (ip : Nat) (mac : List Nat) :
    Int × NetState :=
  match arp_find_slot s 0 ARP_TABLE_SIZE none now with
  | none => (NET_ERROR, s)
  | some i =>
    let e : ArpEntry := ⟨ip, (List.range 6).map (fun k => mac.getD k 0), now, true⟩
    (NET_SUCCESS,
      { s with
        arpTable := fun j => if j = i then e else s.arpTable j
        arpTableEntries := if i ≥ s.arpTableEntries then i + 1 else s.arpTableEntries })

/-- Embedding of `arp_update_entry` (src/network/arp.c:148): refresh an
existing valid entry for the IP, otherwise add one. -/
def arp_update_entry (now : Nat) (s : NetState) (ip : Nat) (mac : List Nat) : NetState :=
  match (List.range ARP_TABLE_SIZE).find?
      (fun i => (s.arpTable i).valid ∧ (s.arpTable i).ip = ip) with
  | some i =>
    { s with arpTable := fun j => if j = i then
        { s.arpTable i with mac := (List.range 6).map (fun k => mac.getD k 0),
                            timestamp := now }
      else s.arpTable j }
  | none => (arp_add_entry now s ip mac).2

/-- An incoming ARP packet, with the fields exactly as the packed
`arp_header_t` holds them in memory (the 16/32-bit fields still in
network byte order; the code converts them with bswap). -/
structure ArpPacketIn where
  operation : Nat
  sender_mac : List Nat
  sender_ip : Nat
  target_mac : List Nat
  target_ip : Nat

/-- Embedding of `arp_process_packet` (src/network/arp.c:75): update the
cache from the sender fields, and answer requests that target our IP
with an ARP reply. -/
def arp_process_packet (now : Nat) (s : NetState) (iface : NetIface)
    (hdr : ArpPacketIn) : NetState :=
  let operation := bswap16 (hdr.operation % 65536)
  let sender_ip := bswap32 (hdr.sender_ip % 2 ^ 32)
  let target_ip := bswap32 (hdr.target_ip % 2 ^ 32)
  let s1 := arp_update_entry now s sender_ip hdr.sender_mac
  if target_ip = iface.ip then
    if operation = ARP_REQUEST then (arp_send_reply s1 iface sender_ip hdr.sender_mac).2
    else s1
  else s1

/-- Embedding of `ip_checksum` (src/network/ip.c:138): one's-complement
sum over the ten 16-bit header words. -/
def ip_checksum (b : List Nat) : Nat :=
  65535 - ones_fold 32
    (((List.range (IP_HEADER_LEN / 2)).map
      (fun i => b.getD (2 * i) 0 + 256 * b.getD (2 * i + 1) 0)).sum)

/-- The 20 header bytes built by `ip_send_packet` before the checksum is
filled in: version/IHL 0x45, TOS 0, total length, identification,
don't-fragment, TTL 64, protocol, zero checksum, source, destination. -/
def ip_header_base (ident protocol src dst payloadLen : Nat) : List Nat :=
  [0x45, 0] ++ be16 ((IP_HEADER_LEN + payloadLen) % 65536) ++ be16 (ident % 65536) ++
    be16 0x4000 ++ [64, protocol % 256] ++ [0, 0] ++ be32 (src % 2 ^ 32) ++
    be32 (dst % 2 ^ 32)

/-- The same header with the computed checksum stored (little-endian
into the `uint16_t` field, i.e. low byte first). -/
def ip_header_bytes (ident protocol src dst payloadLen : Nat) : List Nat :=
  let base := ip_header_base ident protocol src dst payloadLen
  let ck := ip_checksum base
  base.take 10 ++ [ck % 256, ck / 256] ++ base.drop 12

/-- Embedding of `ip_send_packet` (src/network/ip.c:17): parameter
checks, header construction (with post-incremented identification),
then MAC resolution — broadcast destination short-circuits to the
broadcast MAC, an ARP hit sends the frame, and an ARP miss sends an ARP
request and returns `NET_TIMEOUT`, dropping the IP packet (the comment
in the source reads "Would need to queue packet in real
implementation"). -/
def ip_send_packet (s : NetState) (iface : NetIface) (dest_ip protocol : Nat)
    (payload : List Nat) : Int × NetState :=
  if payload = [] then (NET_INVALID_PARAM, s)
  else if payload.length > IP_PACKET_SIZE - IP_HEADER_LEN then (NET_ERROR, s)
  else
    let ident := s.ipIdent
    let s1 := { s with ipIdent := (s.ipIdent + 1) % 65536 }
    let hdr := ip_header_bytes ident protocol iface.ip dest_ip payload.length
    if dest_ip = 0xFFFFFFFF then
      ethernet_send_frame s1 iface [255, 255, 255, 255, 255, 255] ETH_TYPE_IP
        (hdr ++ payload)
    else
      match arp_lookup s1 dest_ip with
      | some mac => ethernet_send_frame s1 iface mac ETH_TYPE_IP (hdr ++ payload)
      | none => (NET_TIMEOUT, (arp_send_request s1 iface dest_ip).2)

end Cgos

namespace Cgos

/-! ## Virtual memory manager page walker (src/memory/vmm.c)

Page tables are 512-entry arrays of 64-bit entries addressed by the
table's base address; the table heap becomes a function from base
address and index to entry.  The four static table arrays of vmm.c
(`static_pml4`, `static_pdp[8]`, `static_pd[16]`, `static_pt[8]`) live
at link-time-chosen page-aligned addresses; the model places them at
fixed consecutive page-aligned addresses, which is all the code ever
relies on (it compares parent pointers against the array bounds).
`physical_alloc_page` (src/memory/pmm.c) is modelled at its interface:
it yields the next frame of a free-frame list, or NULL when exhausted. -/

def PAGE_SIZE : Nat := 4096
def PTE_PRESENT : Nat := 1
def PTE_WRITABLE : Nat := 2
def PTE_USER : Nat := 4
def PTE_ADDR_MASK : Nat := 0x000FFFFFFFFFF000

def static_pml4_addr : Nat := 0x200000
def static_pdp_addr (i : Nat) : Nat := 0x201000 + 0x1000 * i
def static_pd_addr (i : Nat) : Nat := 0x209000 + 0x1000 * i
def static_pt_addr (i : Nat) : Nat := 0x219000 + 0x1000 * i

/-- VMM state touched by `vmm_map_page`: the page-table heap, the three
static-table usage counters, and the physical frame allocator. -/
structure VmmState where
  tables : Nat → Nat → Nat
  staticPdpUsed : Nat
  staticPdUsed : Nat
  staticPtUsed : Nat
  freeFrames : List Nat

/-- Interface model of `physical_alloc_page` (src/memory/pmm.c): the
next free frame, or none when the bitmap has no clear bit. -/
def physical_alloc_page (s : VmmState) : Option Nat × VmmState :=
  match s.freeFrames with
  | [] => (none, s)
  | f :: rest => (some f, { s with freeFrames := rest })

/-- Write one page-table entry. -/
def setTableEntry (s : VmmState) (base idx v : Nat) : VmmState :=
  { s with tables := fun b i => if b = base ∧ i = idx then v else s.tables b i }

/-- Zero the 512 entries of a table (the manual clear loop in
`vmm_get_or_create_table`). -/
def clearTable (s : VmmState) (base : Nat) : VmmState :=
  { s with tables := fun b i => if b = base ∧ i < 512 then 0 else s.tables b i }

/-- Embedding of `vmm_get_or_create_table` (src/memory/vmm.c:389).  A
present entry is reused — except when the parent is the PML4, where the
code deliberately skips reuse ("SKIPPING due to memory corruption
issue") and creates a fresh table.  Creation draws from the matching
static pool while it lasts, then from `physical_alloc_page`; the new
table is zeroed and linked into the parent with the given flags.  On
allocation failure the state is returned unchanged (nothing was
modified yet in this call). -/
def vmm_get_or_create_table (s : VmmState) (parent index flags : Nat) :
    Option Nat × VmmState :=
  if parent = 0 then (none, s)
  else if index ≥ 512 then (none, s)
  else
    let entry := s.tables parent index
    if entry &&& PTE_PRESENT ≠ 0 ∧ parent ≠ static_pml4_addr then
      (some (entry &&& PTE_ADDR_MASK), s)
    else
      let alloc : Option Nat × VmmState :=
        if parent = static_pml4_addr ∧ s.staticPdpUsed < 8 then
          (some (static_pdp_addr s.staticPdpUsed),
           { s with staticPdpUsed := s.staticPdpUsed + 1 })
        else if (static_pdp_addr 0 ≤ parent ∧ parent ≤ static_pdp_addr 7) ∧
                s.staticPdUsed < 16 then
          (some (static_pd_addr s.staticPdUsed),
           { s with staticPdUsed := s.staticPdUsed + 1 })
        else if (static_pd_addr 0 ≤ parent ∧ parent ≤ static_pd_addr 15) ∧
                s.staticPtUsed < 8 then
          (some (static_pt_addr s.staticPtUsed),
           { s with staticPtUsed := s.staticPtUsed + 1 })
        else physical_alloc_page s
      match alloc with
      | (none, s1) => (none, s1)
      | (some newTable, s1) =>
        let s2 := clearTable s1 newTable
        (some newTable,
         setTableEntry s2 parent index (newTable ||| flags ||| PTE_PRESENT))

/-- Embedding of `vmm_map_page` (src/memory/vmm.c:91): check page
alignment, walk PML4 → PDP → PD → PT, creating tables as needed with
`PRESENT|WRITABLE|(flags & USER)`, then write the leaf entry
`phys | flags | PRESENT`.  (`invlpg` has no counterpart in the model.)
A failed table creation aborts with `false`, keeping whatever entries
the earlier levels already created. -/
def vmm_map_page (s : VmmState) (virtual_addr physical_addr flags : Nat) :
    Bool × VmmState :=
  if ¬ (virtual_addr % PAGE_SIZE = 0) ∨ ¬ (physical_addr % PAGE_SIZE = 0) then (false, s)
  else
    let pml4_idx := virtual_addr / 2 ^ 39 % 512
    let pdp_idx := virtual_addr / 2 ^ 30 % 512
    let pd_idx := virtual_addr / 2 ^ 21 % 512
    let pt_idx := virtual_addr / 2 ^ 12 % 512
    let tflags := PTE_PRESENT ||| PTE_WRITABLE ||| (flags &&& PTE_USER)
    match vmm_get_or_create_table s static_pml4_addr pml4_idx tflags with
    | (none, s1) => (false, s1)
    | (some pdp, s1) =>
      match vmm_get_or_create_table s1 pdp pdp_idx tflags with
      | (none, s2) => (false, s2)
      | (some pd, s2) =>
        match vmm_get_or_create_table s2 pd pd_idx tflags with
        | (none, s3) => (false, s3)
        | (some pt, s3) =>
          (true, setTableEntry s3 pt pt_idx (physical_addr ||| flags ||| PTE_PRESENT))

/-! ## Page-fault handler (src/interrupt/interrupt.c)

The `PAGE_MASK`, `PAGE_PRESENT`, `PAGE_WRITABLE`, `PAGE_USER`,
`PAGE_PCD` and `PAGE_PWT` macros used by interrupt.c are not defined in
any header under src/.  Modelled from the spec: these carry the
architectural x86 page-table bit values (identical to vmm.h's `PTE_*`
constants), and `PAGE_MASK` is 0xFFF. -/

def PAGE_MASK : Nat := 0xFFF
def PAGE_PRESENT : Nat := 1
def PAGE_WRITABLE : Nat := 2
def PAGE_USER : Nat := 4
def PAGE_PWT : Nat := 8
def PAGE_PCD : Nat := 16
def PAGE_FAULT_USER : Nat := 4

/-- The flag word `handle_mmio_page_fault` passes to `vmm_map_page`:
PRESENT|WRITABLE, plus USER if the fault came from user mode, plus
PCD|PWT. -/
def page_fault_flags (error_code : Nat) : Nat :=
  let f0 := PAGE_PRESENT ||| PAGE_WRITABLE
  let f1 := if error_code &&& PAGE_FAULT_USER ≠ 0 then f0 ||| PAGE_USER else f0
  f1 ||| PAGE_PCD ||| PAGE_PWT

/-- Embedding of `handle_mmio_page_fault` (src/interrupt/interrupt.c:114):
for a fault address inside `[0xE0000000, 0x100000000)` — with no check
of the user bit — align it down and identity-map it through
`vmm_map_page`; report success of the mapping.  Everything else returns
false. -/
def handle_mmio_page_fault (s : VmmState) (fault_addr error_code : Nat) :
    Bool × VmmState :=
  if 0xE0000000 ≤ fault_addr ∧ fault_addr < 0x100000000 then
    let page_addr := fault_addr - fault_addr % PAGE_SIZE
    match vmm_map_page s page_addr page_addr (page_fault_flags error_code) with
    | (true, s1) => (true, s1)
    | (false, s1) => (false, s1)
  else (false, s)

/-- Outcome of the page-fault handler: return to the faulting context,
or halt with interrupts disabled (`cli; hlt` loop). -/
inductive PfOutcome where
  | returned (s : VmmState)
  | halted (s : VmmState)

/-- Discriminator for `PfOutcome`. -/
def PfOutcome.isReturned : PfOutcome → Bool
  | .returned _ => true
  | .halted _ => false

/-- Embedding of `page_fault_handler` (src/interrupt/interrupt.c:60):
log the decoded cause (no observable state), try the MMIO repair, and
halt unless it succeeded. -/
def page_fault_handler (s : VmmState) (fault_addr error_code : Nat) : PfOutcome :=
  match handle_mmio_page_fault s fault_addr error_code with
  | (true, s1) => PfOutcome.returned s1
  | (false, s1) => PfOutcome.halted s1

end Cgos

namespace Cgos

/-! ## FAT16 filesystem (src/fs/fat16.c)

The disk is modelled as a function from sector number and byte offset to
the stored byte; `ata_read_sectors`/`ata_write_sectors` are error-free
in the model (their failure paths are I/O-hardware conditions).  Struct
reinterpretations of the 512-byte `sector_buffer` (`fat16_bpb_t`,
`uint16_t` FAT words, `fat16_dir_entry_t`) become little-endian byte
reads at the packed offsets. -/

/-- A disk: sector number and byte offset to byte value. -/
def Disk : Type := Nat → Nat → Nat

/-- Little-endian 16-bit read from a sector. -/
def rd16d (d : Disk) (sec off : Nat) : Nat := d sec off + 256 * d sec (off + 1)

/-- Little-endian 32-bit read from a sector. -/
def rd32d (d : Disk) (sec off : Nat) : Nat :=
  d sec off + 256 * d sec (off + 1) + 65536 * d sec (off + 2) +
    16777216 * d sec (off + 3)

def FAT16_FREE : Nat := 0x0000
def FAT16_END_OF_CHAIN : Nat := 0xFFF8
def FAT_ATTR_VOLUME_ID : Nat := 0x08
def FAT_ATTR_DIRECTORY : Nat := 0x10
def FAT_ATTR_LFN : Nat := 0x0F

/-- The mounted-filesystem record `fat16_fs_t` (src/fs/fat16.h): stored
BPB values and the derived layout. -/
structure Fat16Fs where
  mounted : Bool
  drive : Nat
  bytes_per_sector : Nat
  sectors_per_cluster : Nat
  reserved_sectors : Nat
  num_fats : Nat
  root_entry_count : Nat
  fat_size : Nat
  total_sectors : Nat
  fat_start_sector : Nat
  root_dir_start : Nat
  root_dir_sectors : Nat
  data_start_sector : Nat
  total_clusters : Nat

/-- The boot-sector signature check of `fat16_mount`
(src/fs/fat16.c:174): bytes 510/511 must read 0x55 0xAA. -/
def fat16BootSignatureOk (d : Disk) : Prop := d 0 510 = 0x55 ∧ d 0 511 = 0xAA

/-- The `bytes_per_sector` BPB field (offset 11, little-endian). -/
def fat16BytesPerSector (d : Disk) : Nat := rd16d d 0 11

/-- The total sector count: `total_sectors_16` (offset 19) when nonzero,
else `total_sectors_32` (offset 32). -/
def fat16TotalSectors (d : Disk) : Nat :=
  if rd16d d 0 19 ≠ 0 then rd16d d 0 19 else rd32d d 0 32

/-- The derived data-start sector, exactly as `fat16_mount` computes it:
`reserved + num_fats*fat_size + ceil(root_entry_count*32 / 512)`. -/
def fat16DataStart (d : Disk) : Nat :=
  rd16d d 0 14 + d 0 16 * rd16d d 0 22 + (rd16d d 0 17 * 32 + 511) / 512

/-- The derived cluster count `(total_sectors - data_start) /
sectors_per_cluster`, with the uint32 subtraction wrap made explicit.
(When `sectors_per_cluster` is 0 the C division faults; the model's Nat
division returns 0, which the mount range check rejects either way.) -/
def fat16TotalClustersOf (d : Disk) : Nat :=
  (fat16TotalSectors d + 2 ^ 32 - fat16DataStart d) % 2 ^ 32 / d 0 13

/-- Embedding of `fat16_mount` (src/fs/fat16.c:150).  A `none` result is
the `-1` failure return, after which the global `fs.mounted` flag is
false (the function unmounts at entry and only sets `mounted` after all
checks pass); `some fs` is the mounted state. -/
def fat16_mount (drivePresent : Bool) (drive : Nat) (d : Disk) : Option Fat16Fs :=
  if ¬ drivePresent then none
  else if ¬ (d 0 510 = 0x55 ∧ d 0 511 = 0xAA) then none
  else if rd16d d 0 11 ≠ 512 then none
  else
    let bps := rd16d d 0 11
    let spc := d 0 13
    let reserved := rd16d d 0 14
    let nf := d 0 16
    let rootEntryCount := rd16d d 0 17
    let fatSize := rd16d d 0 22
    let totalSectors := fat16TotalSectors d
    let fatStart := reserved
    let rootStart := fatStart + nf * fatSize
    let rootSectors := (rootEntryCount * 32 + 511) / 512
    let dataStart := rootStart + rootSectors
    let tc := fat16TotalClustersOf d
    if tc < 4085 ∨ 65525 ≤ tc then none
    else some ⟨true, drive, bps, spc, reserved, nf, rootEntryCount, fatSize,
      totalSectors, fatStart, rootStart, rootSectors, dataStart, tc⟩

/-- Whether the global filesystem is mounted after a `fat16_mount`
call. -/
def fat16MountedAfter (drivePresent : Bool) (drive : Nat) (d : Disk) : Bool :=
  (fat16_mount drivePresent drive d).isSome

end Cgos

namespace Cgos

/-! ## FAT16 file read/write (src/fs/fat16.c)

State threaded through the file operations: the disk plus the
single-sector FAT cache (`fat_cache` / `fat_cache_sector`), which
`fat_read_entry` fills on a miss and `fat_write_entry` invalidates. -/

def FAT_CACHE_INVALID : Nat := 0xFFFFFFFF

/-- Filesystem driver state: disk contents and the FAT cache (the cache
holds the 256 `uint16_t` words of one FAT sector). -/
structure Fat16St where
  disk : Disk
  cacheSector : Nat
  cache : Nat → Nat

/-- Overwrite one 512-byte sector (the effect of `write_sector`). -/
def write_sector (d : Disk) (lba : Nat) (content : Nat → Nat) : Disk :=
  fun sec off => if sec = lba then content off else d sec off

/-- Embedding of `fat_read_entry` (src/fs/fat16.c:36): compute the FAT
sector and word offset of the cluster's entry, reload the cache on a
miss, and return the cached word.  (The read-failure path returns
`FAT16_BAD_CLUSTER` only on an ATA error, which the model's disk never
produces.) -/
def fat_read_entry (fs : Fat16Fs) (st : Fat16St) (cluster : Nat) : Nat × Fat16St :=
  let fatOffset := cluster * 2
  let fatSector := fs.fat_start_sector + fatOffset / 512
  let entryOffset := fatOffset % 512 / 2
  if fatSector ≠ st.cacheSector then
    let newCache := fun k => rd16d st.disk fatSector (2 * k)
    (newCache entryOffset, { st with cacheSector := fatSector, cache := newCache })
  else
    (st.cache entryOffset, st)

/-- Write the same sector image into each FAT copy (`for i <
num_fats: write_sector(fat_sector + i*fat_size)`); the iteration order
differs from C but every copy receives the same content. -/
def write_fat_copies (d : Disk) (fatSector fatSize : Nat) (content : Nat → Nat) :
    Nat → Disk
  | 0 => d
  | k + 1 =>
    write_sector (write_fat_copies d fatSector fatSize content k)
      (fatSector + k * fatSize) content

/-- Embedding of `fat_write_entry` (src/fs/fat16.c:53): read the FAT
sector, patch the 16-bit word of the cluster, write the sector back to
every FAT copy, and invalidate the cache. -/
def fat_write_entry (fs : Fat16Fs) (st : Fat16St) (cluster value : Nat) : Fat16St :=
  let fatOffset := cluster * 2
  let fatSector := fs.fat_start_sector + fatOffset / 512
  let entryOffset := fatOffset % 512 / 2
  let content := fun o =>
    if o = 2 * entryOffset then value % 256
    else if o = 2 * entryOffset + 1 then value / 256 % 256
    else st.disk fatSector o
  { disk := write_fat_copies st.disk fatSector fs.fat_size content fs.num_fats
    cacheSector := FAT_CACHE_INVALID
    cache := st.cache }

/-- The FAT entry of a cluster as stored on disk (first FAT copy), the
value `fat_read_entry` yields through a coherent cache. -/
def fat_disk_entry (fs : Fat16Fs) (d : Disk) (cluster : Nat) : Nat :=
  rd16d d (fs.fat_start_sector + cluster * 2 / 512) (cluster * 2 % 512)

/-- The scan of `fat_find_free_cluster` (src/fs/fat16.c:81), from
cluster `c` with `fuel` clusters left to try (the C loop runs `cluster`
from 2 to `total_clusters + 1`). -/
def fat_find_free_cluster_aux (fs : Fat16Fs) (st : Fat16St) (c fuel : Nat) :
    Nat × Fat16St :=
  match fuel with
  | 0 => (0, st)
  | fuel + 1 =>
    match fat_read_entry fs st c with
    | (v, st1) =>
      if v = FAT16_FREE then (c, st1)
      else fat_find_free_cluster_aux fs st1 (c + 1) fuel

/-- Embedding of `fat_find_free_cluster` (src/fs/fat16.c:81): first-fit
scan from cluster 2; 0 when the FAT has no free entry. -/
def fat_find_free_cluster (fs : Fat16Fs) (st : Fat16St) : Nat × Fat16St :=
  fat_find_free_cluster_aux fs st 2 fs.total_clusters

/-- Embedding of `cluster_to_sector` (src/fs/fat16.c:31). -/
def cluster_to_sector (fs : Fat16Fs) (cluster : Nat) : Nat :=
  fs.data_start_sector + (cluster - 2) * fs.sectors_per_cluster

/-- The 8.3 display name assembled by `name_matches`
(src/fs/fat16.c:91): the space-trimmed name part, then a dot and the
space-trimmed extension when the extension's first byte is not a
space. -/
def entry_name_bytes (d : Disk) (sec j : Nat) : List Nat :=
  ((List.range 8).map (fun i => d sec (32 * j + i))).takeWhile (fun b => b ≠ 32) ++
    (if d sec (32 * j + 8) ≠ 32 then
      46 :: ((List.range 3).map (fun i => d sec (32 * j + 8 + i))).takeWhile (fun b => b ≠ 32)
    else [])

/-- Byte uppercasing (`if (c >= 'a' && c <= 'z') c -= 32`). -/
def upperByte (c : Nat) : Nat := if 97 ≤ c ∧ c ≤ 122 then c - 32 else c

/-- The case-insensitive C-string comparison loop of `name_matches`: a
list models a NUL-terminated string (the terminator is the end of the
list, and an embedded 0 byte also stops the scan). -/
def cs_name_eq : List Nat → List Nat → Bool
  | [], [] => true
  | [], b :: _ => decide (0 = b)
  | a :: _, [] => decide (a = 0)
  | a :: as, b :: bs =>
    if a = 0 ∨ b = 0 then decide (a = b)
    else if upperByte a ≠ upperByte b then false
    else cs_name_eq as bs

/-- Embedding of `name_matches` (src/fs/fat16.c:91) for the directory
entry `j` of sector `sec`. -/
def name_matches (d : Disk) (sec j : Nat) (name : List Nat) : Bool :=
  cs_name_eq (entry_name_bytes d sec j) name

/-- Result of scanning one directory entry / one sector. -/
inductive ScanRes where
  | found (j : Nat)
  | stop
  | cont

/-- The 16-entries-per-sector directory scan shared by
`fat16_find_file`, `fat16_write_file` and `fat16_delete_file`: stop at a
0x00 name byte, skip deleted (0xE5), long-file-name (attr 0x0F) and
volume-label entries, and report the first matching name. -/
def find_in_sector (d : Disk) (sec : Nat) (name : List Nat) (j fuel : Nat) : ScanRes :=
  match fuel with
  | 0 => ScanRes.cont
  | fuel + 1 =>
    let b0 := d sec (32 * j)
    if b0 = 0x00 then ScanRes.stop
    else if b0 = 0xE5 then find_in_sector d sec name (j + 1) fuel
    else
      let attr := d sec (32 * j + 11)
      if attr = FAT_ATTR_LFN then find_in_sector d sec name (j + 1) fuel
      else if attr &&& FAT_ATTR_VOLUME_ID ≠ 0 then find_in_sector d sec name (j + 1) fuel
      else if name_matches d sec j name then ScanRes.found j
      else find_in_sector d sec name (j + 1) fuel

/-- The root-directory sector loop of the entry search. -/
def fat16_find_loc_aux (fs : Fat16Fs) (d : Disk) (name : List Nat) (i fuel : Nat) :
    Option (Nat × Nat) :=
  match fuel with
  | 0 => none
  | fuel + 1 =>
    match find_in_sector d (fs.root_dir_start + i) name 0 16 with
    | ScanRes.found j => some (fs.root_dir_start + i, j)
    | ScanRes.stop => none
    | ScanRes.cont => fat16_find_loc_aux fs d name (i + 1) fuel

/-- Locate a file's directory entry: the sector/index search performed
identically by `fat16_find_file` (src/fs/fat16.c:277) and by the find
loop of `fat16_write_file` (src/fs/fat16.c:392). -/
def fat16_find_loc (fs : Fat16Fs) (d : Disk) (name : List Nat) : Option (Nat × Nat) :=
  fat16_find_loc_aux fs d name 0 fs.root_dir_sectors

/-- The `cluster_lo` field (bytes 26/27) of directory entry `j`. -/
def dir_cluster_lo (d : Disk) (sec j : Nat) : Nat := rd16d d sec (32 * j + 26)

/-- The `file_size` field (bytes 28-31) of directory entry `j`. -/
def dir_file_size (d : Disk) (sec j : Nat) : Nat := rd32d d sec (32 * j + 28)

/-- The `attr` field (byte 11) of directory entry `j`. -/
def dir_attr (d : Disk) (sec j : Nat) : Nat := d sec (32 * j + 11)

/-- The free-existing-clusters loop of `fat16_write_file`
(src/fs/fat16.c:418) and `fat16_delete_file`: walk the chain, marking
each visited cluster `FAT16_FREE`.  The C while loop terminates on any
FAT because freeing breaks revisits; fuel 65536 covers every chain a
16-bit FAT can hold. -/
def fat16_free_chain (fs : Fat16Fs) (st : Fat16St) (cluster fuel : Nat) : Fat16St :=
  match fuel with
  | 0 => st
  | fuel + 1 =>
    if 2 ≤ cluster ∧ cluster < FAT16_END_OF_CHAIN then
      match fat_read_entry fs st cluster with
      | (next, st1) => fat16_free_chain fs (fat_write_entry fs st1 cluster FAT16_FREE) next fuel
    else st

/-- The per-cluster data-write loop of `fat16_write_file`
(src/fs/fat16.c:450): for each of the cluster's sectors while bytes
remain, zero the sector buffer, copy up to 512 payload bytes, and write
the sector.  Returns the updated disk and the unwritten tail of the
payload. -/
def write_sectors_loop (d : Disk) (secBase i cnt : Nat) (bytes : List Nat) :
    Disk × List Nat :=
  match cnt with
  | 0 => (d, bytes)
  | cnt + 1 =>
    if bytes = [] then (d, bytes)
    else
      let content := fun o => (bytes.take 512).getD o 0
      write_sectors_loop (write_sector d (secBase + i) content) secBase (i + 1) cnt
        (bytes.drop 512)

/-- The cluster-allocation loop of `fat16_write_file`
(src/fs/fat16.c:433): while payload remains, claim a free cluster (fail
with disk-full when none), link it behind the previous one, mark it
end-of-chain, and write the payload slice into its sectors.  Each
iteration consumes at least one byte of payload whenever
`sectors_per_cluster ≥ 1`, so fuel `length + 1` is enough. -/
def fat16_alloc_write (fs : Fat16Fs) (st : Fat16St) (bytes : List Nat)
    (firstCluster prevCluster fuel : Nat) : Option Nat × Fat16St :=
  match fuel with
  | 0 => (none, st)
  | fuel + 1 =>
    if bytes = [] then (some firstCluster, st)
    else
      match fat_find_free_cluster fs st with
      | (cluster, st1) =>
        if cluster = 0 then (none, st1)
        else
          let first2 := if firstCluster = 0 then cluster else firstCluster
          let st2 := if prevCluster ≠ 0 then fat_write_entry fs st1 prevCluster cluster
                     else st1
          let st3 := fat_write_entry fs st2 cluster FAT16_END_OF_CHAIN
          match write_sectors_loop st3.disk (cluster_to_sector fs cluster) 0
              fs.sectors_per_cluster bytes with
          | (d1, rest) =>
            fat16_alloc_write fs { st3 with disk := d1 } rest first2 cluster fuel

/-- Embedding of `fat16_write_file` (src/fs/fat16.c:385): find the
entry, free its existing chain, allocate and fill a fresh chain, then
rewrite the directory entry's `cluster_lo` and `file_size` (a `uint32_t`
store).  Returns the written size on success, `none` for the `-1`
paths. -/
def fat16_write_file (fs : Fat16Fs) (st : Fat16St) (name data : List Nat) :
    Option Nat × Fat16St :=
  if ¬ fs.mounted then (none, st)
  else
    match fat16_find_loc fs st.disk name with
    | none => (none, st)
    | some (entrySector, entryIndex) =>
      let c0 := dir_cluster_lo st.disk entrySector entryIndex
      let st1 := if 2 ≤ c0 then fat16_free_chain fs st c0 65536 else st
      match fat16_alloc_write fs st1 data 0 0 (data.length + 1) with
      | (none, st2) => (none, st2)
      | (some first, st2) =>
        let n := data.length
        let content := fun o =>
          if o = 32 * entryIndex + 26 then first % 256
          else if o = 32 * entryIndex + 27 then first / 256 % 256
          else if o = 32 * entryIndex + 28 then n % 256
          else if o = 32 * entryIndex + 29 then n / 256 % 256
          else if o = 32 * entryIndex + 30 then n / 65536 % 256
          else if o = 32 * entryIndex + 31 then n / 16777216 % 256
          else st2.disk entrySector o
        (some n, { st2 with disk := write_sector st2.disk entrySector content })

/-- The per-cluster read loop of `fat16_read_file`
(src/fs/fat16.c:328): read each sector of the cluster while bytes
remain, copying `min(remaining, 512)` bytes. -/
def read_sectors_loop (d : Disk) (secBase i cnt remaining : Nat) (acc : List Nat) :
    List Nat × Nat :=
  match cnt with
  | 0 => (acc, remaining)
  | cnt + 1 =>
    if remaining = 0 then (acc, remaining)
    else
      let copy := min remaining 512
      read_sectors_loop d secBase (i + 1) cnt (remaining - copy)
        (acc ++ (List.range copy).map (fun o => d (secBase + i) o))

/-- The FAT-chain walk of `fat16_read_file` (src/fs/fat16.c:325):
follow the chain while bytes remain and the cluster is a valid data
cluster, accumulating the bytes read.  Fuel `size + 1` covers the walk
whenever `sectors_per_cluster ≥ 1`. -/
def fat16_read_chain (fs : Fat16Fs) (st : Fat16St) (cluster remaining : Nat)
    (acc : List Nat) (fuel : Nat) : List Nat × Fat16St :=
  match fuel with
  | 0 => (acc, st)
  | fuel + 1 =>
    if remaining = 0 ∨ ¬ (2 ≤ cluster ∧ cluster < FAT16_END_OF_CHAIN) then (acc, st)
    else
      match read_sectors_loop st.disk (cluster_to_sector fs cluster) 0
          fs.sectors_per_cluster remaining acc with
      | (acc1, rem1) =>
        match fat_read_entry fs st cluster with
        | (next, st1) => fat16_read_chain fs st1 next rem1 acc1 fuel

/-- Embedding of `fat16_read_file` (src/fs/fat16.c:306): find the
entry, refuse directories, clamp the size to the caller's `max_size`,
and walk the chain.  Returns the C result (the clamped size) together
with the bytes actually copied into the caller's buffer. -/
def fat16_read_file (fs : Fat16Fs) (st : Fat16St) (name : List Nat) (maxSize : Nat) :
    Option (Nat × List Nat) × Fat16St :=
  if ¬ fs.mounted then (none, st)
  else
    match fat16_find_loc fs st.disk name with
    | none => (none, st)
    | some (sec, j) =>
      if dir_attr st.disk sec j &&& FAT_ATTR_DIRECTORY ≠ 0 then (none, st)
      else
        let size := min (dir_file_size st.disk sec j) maxSize
        let cluster := dir_cluster_lo st.disk sec j
        match fat16_read_chain fs st cluster size [] (size + 1) with
        | (bytes, st1) => (some (size, bytes), st1)

end Cgos

namespace Cgos

/-! ## Well-formedness predicates for the FAT16 round-trip -/

/-- Geometric well-formedness of a mounted FAT16 volume: the properties
`fat16_mount` establishes (mounted flag, cluster-count range) together
with the sanity of the on-disk geometry that any real FAT16 volume has —
nonzero cluster size and FAT count, a FAT large enough to hold an entry
for every data cluster, and the FAT copies, root directory and data
area laid out in that order without overlap (which is how the mount
code derives `root_dir_start` and `data_start_sector`). -/
structure FsGeomOk (fs : Fat16Fs) : Prop where
  mounted : fs.mounted = true
  spc_pos : 1 ≤ fs.sectors_per_cluster
  nf_pos : 1 ≤ fs.num_fats
  tc_lo : 4085 ≤ fs.total_clusters
  tc_hi : fs.total_clusters < 65525
  fat_covers : (fs.total_clusters + 2) * 2 ≤ fs.fat_size * 512
  fat_before_root : fs.fat_start_sector + fs.num_fats * fs.fat_size ≤ fs.root_dir_start
  root_before_data : fs.root_dir_start + fs.root_dir_sectors ≤ fs.data_start_sector
  cache_sep : fs.fat_start_sector + fs.fat_size < FAT_CACHE_INVALID

/-- Coherence of the FAT cache: either invalidated, or it holds the
16-bit view of one FAT sector of the current disk. -/
def CacheOk (fs : Fat16Fs) (st : Fat16St) : Prop :=
  st.cacheSector = FAT_CACHE_INVALID ∨
    (fs.fat_start_sector ≤ st.cacheSector ∧
     st.cacheSector < fs.fat_start_sector + fs.fat_size ∧
     ∀ k, st.cache k = rd16d st.disk st.cacheSector (2 * k))

/-- The data sectors of cluster `c` hold the bytes of `chunk` at their
sequential positions (sector `k / 512`, offset `k % 512`). -/
def ClusterData (fs : Fat16Fs) (d : Disk) (c : Nat) (chunk : List Nat) : Prop :=
  ∀ k, k < chunk.length → d (cluster_to_sector fs c + k / 512) (k % 512) = chunk.getD k 0

/-- A well-formed existing FAT chain starting at `c`, listed as `chain`:
consecutive links through the on-disk FAT, clusters in the valid data
range, no cluster repeated, and a terminator (a value outside
`[2, 0xFFF8)`) after the last element. -/
def ChainOk (fs : Fat16Fs) (d : Disk) : Nat → List Nat → Prop
  | c, [] => ¬ (2 ≤ c ∧ c < FAT16_END_OF_CHAIN)
  | c, c0 :: rest => c = c0 ∧ 2 ≤ c ∧ c < fs.total_clusters + 2 ∧ c ∉ rest ∧
      ChainOk fs d (fat_disk_entry fs d c) rest

/-- The freshly written chain `fat16_write_file` leaves behind: starting
at `c`, each cluster holds the next slice of `bytes` (zero-padded on
disk, but `ClusterData` records the payload bytes themselves), the FAT
links the clusters in order, and the last one is marked end-of-chain. -/
inductive WrittenChain (fs : Fat16Fs) (d : Disk) : Nat → List Nat → Prop where
  | last (c : Nat) (bytes : List Nat) (h2 : 2 ≤ c) (hlt : c < fs.total_clusters + 2)
      (hne : bytes ≠ []) (hlen : bytes.length ≤ fs.sectors_per_cluster * 512)
      (hfat : fat_disk_entry fs d c = FAT16_END_OF_CHAIN)
      (hdata : ClusterData fs d c bytes) : WrittenChain fs d c bytes
  | cons (c next : Nat) (bytes : List Nat) (h2 : 2 ≤ c)
      (hlt : c < fs.total_clusters + 2)
      (hlen : fs.sectors_per_cluster * 512 < bytes.length)
      (hfat : fat_disk_entry fs d c = next)
      (hdata : ClusterData fs d c (bytes.take (fs.sectors_per_cluster * 512)))
      (hrest : WrittenChain fs d next (bytes.drop (fs.sectors_per_cluster * 512))) :
      WrittenChain fs d c bytes

/-! ## Arithmetic and congruence lemmas -/

/-- Helper: the FAT sector of any valid cluster lies inside the first
FAT copy. -/
theorem fat_sector_lt (fs : Fat16Fs) (hg : FsGeomOk fs) (c : Nat)
    (hc : c < fs.total_clusters + 2) :
    c * 2 / 512 < fs.fat_size := by
  have h1 : c * 2 < fs.fat_size * 512 := by
    have := hg.fat_covers
    omega
  omega

/-- Helper: the FAT-entry byte offset within its sector is even, and
rebuilding it from the word offset is the identity. -/
theorem fat_entry_off_even (c : Nat) : 2 * (c * 2 % 512 / 2) = c * 2 % 512 := by
  omega

/-- Helper: a `fat_read_entry` through a coherent cache returns the
on-disk entry of the cluster, leaves the disk unchanged and keeps the
cache coherent. -/
theorem fat_read_entry_spec (fs : Fat16Fs) (hg : FsGeomOk fs) (st : Fat16St) (c : Nat)
    (hcache : CacheOk fs st) (hc : c < fs.total_clusters + 2) :
    (fat_read_entry fs st c).1 = fat_disk_entry fs st.disk c ∧
    (fat_read_entry fs st c).2.disk = st.disk ∧
    CacheOk fs (fat_read_entry fs st c).2 := by
  have hsec := fat_sector_lt fs hg c hc
  have heven := fat_entry_off_even c
  unfold fat_read_entry
  dsimp only
  by_cases hmiss : fs.fat_start_sector + c * 2 / 512 ≠ st.cacheSector
  · rw [if_pos hmiss]
    refine ⟨?_, rfl, ?_⟩
    · show rd16d st.disk (fs.fat_start_sector + c * 2 / 512) (2 * (c * 2 % 512 / 2)) =
        fat_disk_entry fs st.disk c
      rw [heven]
      rfl
    · refine Or.inr ⟨?_, ?_, fun k => rfl⟩
      · show fs.fat_start_sector ≤ fs.fat_start_sector + c * 2 / 512
        omega
      · show fs.fat_start_sector + c * 2 / 512 < fs.fat_start_sector + fs.fat_size
        omega
  · rw [if_neg hmiss]
    push_neg at hmiss
    rcases hcache with hinv | ⟨hlo, hhi, hview⟩
    · exfalso
      rw [hinv] at hmiss
      have := hg.cache_sep
      omega
    · refine ⟨?_, rfl, Or.inr ⟨hlo, hhi, hview⟩⟩
      show st.cache (c * 2 % 512 / 2) = fat_disk_entry fs st.disk c
      rw [hview]
      rw [heven, ← hmiss]
      rfl

/-- Helper: sectors not targeted by any FAT copy keep their contents
through `write_fat_copies`. -/
theorem write_fat_copies_other (d : Disk) (fatSector fatSize : Nat)
    (content : Nat → Nat) :
    ∀ n sec off, (∀ k, k < n → sec ≠ fatSector + k * fatSize) →
      write_fat_copies d fatSector fatSize content n sec off = d sec off := by
  intro n
  induction n with
  | zero => intro sec off h; rfl
  | succ m ih =>
    intro sec off h
    show write_sector (write_fat_copies d fatSector fatSize content m)
        (fatSector + m * fatSize) content sec off = d sec off
    unfold write_sector
    rw [if_neg (h m (by omega))]
    exact ih sec off (fun k hk => h k (by omega))

/-- Helper: the first FAT copy receives the patched sector image (the
later copies land at strictly higher sectors when `fat_size ≥ 1`). -/
theorem write_fat_copies_first (d : Disk) (fatSector fatSize : Nat)
    (content : Nat → Nat) (hfs : 1 ≤ fatSize) :
    ∀ n off, 1 ≤ n →
      write_fat_copies d fatSector fatSize content n fatSector off = content off := by
  intro n
  induction n with
  | zero => intro off h; omega
  | succ m ih =>
    intro off _
    show write_sector (write_fat_copies d fatSector fatSize content m)
        (fatSector + m * fatSize) content fatSector off = content off
    unfold write_sector
    by_cases hm : m = 0
    · subst hm
      rw [if_pos (by omega)]
    · rw [if_neg (by
        have : 1 * fatSize ≤ m * fatSize := Nat.mul_le_mul_right fatSize (by omega)
        omega)]
      exact ih off (by omega)

/-- Helper: a FAT write leaves the cache invalidated, hence coherent. -/
theorem fat_write_entry_cache (fs : Fat16Fs) (st : Fat16St) (c v : Nat) :
    CacheOk fs (fat_write_entry fs st c v) :=
  Or.inl rfl

/-- Helper: a FAT write touches only FAT-copy sectors, which all lie
below the root directory. -/
theorem fat_write_entry_preserve (fs : Fat16Fs) (hg : FsGeomOk fs) (st : Fat16St)
    (c v : Nat) (hc : c < fs.total_clusters + 2) :
    ∀ sec off, fs.root_dir_start ≤ sec →
      (fat_write_entry fs st c v).disk sec off = st.disk sec off := by
  intro sec off hsec
  have h1 : c * 2 / 512 < fs.fat_size := fat_sector_lt fs hg c hc
  have h3 := hg.fat_before_root
  apply write_fat_copies_other
  intro k hk
  have h2 : (k + 1) * fs.fat_size ≤ fs.num_fats * fs.fat_size :=
    Nat.mul_le_mul_right fs.fat_size (by omega)
  have h4 : (k + 1) * fs.fat_size = k * fs.fat_size + fs.fat_size := by ring
  omega

/-- Helper: after `fat_write_entry fs st c v`, the on-disk entry of `c`
reads back as the 16-bit truncation of `v`. -/
theorem fat_write_entry_self (fs : Fat16Fs) (hg : FsGeomOk fs) (st : Fat16St)
    (c v : Nat) (hc : c < fs.total_clusters + 2) :
    fat_disk_entry fs (fat_write_entry fs st c v).disk c = v % 65536 := by
  have h1 : c * 2 / 512 < fs.fat_size := fat_sector_lt fs hg c hc
  have hfs1 : 1 ≤ fs.fat_size := by omega
  have heven := fat_entry_off_even c
  unfold fat_disk_entry fat_write_entry rd16d
  dsimp only
  rw [write_fat_copies_first _ _ _ _ hfs1 _ _ hg.nf_pos,
      write_fat_copies_first _ _ _ _ hfs1 _ _ hg.nf_pos,
      if_pos (by omega), if_neg (by omega), if_pos (by omega)]
  omega

/-- Helper: after `fat_write_entry fs st c v`, every other valid
cluster's on-disk entry is unchanged. -/
theorem fat_write_entry_other (fs : Fat16Fs) (hg : FsGeomOk fs) (st : Fat16St)
    (c v c' : Nat) (hc : c < fs.total_clusters + 2) (hc2 : c' < fs.total_clusters + 2)
    (hne : c' ≠ c) :
    fat_disk_entry fs (fat_write_entry fs st c v).disk c' =
      fat_disk_entry fs st.disk c' := by
  have h1 : c * 2 / 512 < fs.fat_size := fat_sector_lt fs hg c hc
  have h2 : c' * 2 / 512 < fs.fat_size := fat_sector_lt fs hg c' hc2
  have hfs1 : 1 ≤ fs.fat_size := by omega
  unfold fat_disk_entry fat_write_entry rd16d
  dsimp only
  by_cases hsec : c' * 2 / 512 = c * 2 / 512
  · rw [hsec]
    rw [write_fat_copies_first _ _ _ _ hfs1 _ _ hg.nf_pos,
        write_fat_copies_first _ _ _ _ hfs1 _ _ hg.nf_pos]
    have hmodne : c' * 2 % 512 ≠ c * 2 % 512 := by
      intro hmod
      exact hne (by omega)
    rw [if_neg (by omega), if_neg (by omega), if_neg (by omega), if_neg (by omega)]
  · have hother : ∀ k, k < fs.num_fats →
        fs.fat_start_sector + c' * 2 / 512 ≠
          fs.fat_start_sector + c * 2 / 512 + k * fs.fat_size := by
      intro k hk
      rcases Nat.eq_zero_or_pos k with hk0 | hkpos
      · subst hk0
        omega
      · have : 1 * fs.fat_size ≤ k * fs.fat_size :=
          Nat.mul_le_mul_right fs.fat_size hkpos
        omega
    rw [write_fat_copies_other _ _ _ _ _ _ _ hother,
        write_fat_copies_other _ _ _ _ _ _ _ (by
          intro k hk
          have := hother k hk
          omega)]

/-- Helper: cache coherence survives any disk change that leaves the
FAT-copy area untouched. -/
theorem CacheOk_congr (fs : Fat16Fs) (st : Fat16St) (d2 : Disk) (h : CacheOk fs st)
    (hagree : ∀ sec off, sec < fs.fat_start_sector + fs.fat_size →
      d2 sec off = st.disk sec off) :
    CacheOk fs { st with disk := d2 } := by
  rcases h with hinv | ⟨hlo, hhi, hview⟩
  · exact Or.inl hinv
  · refine Or.inr ⟨hlo, hhi, fun k => ?_⟩
    show st.cache k = rd16d d2 st.cacheSector (2 * k)
    unfold rd16d
    rw [hagree _ _ hhi, hagree _ _ hhi]
    exact hview k

/-- Helper: every cluster of a well-formed chain lies in the valid data
range. -/
theorem ChainOk_mem (fs : Fat16Fs) (d : Disk) :
    ∀ chain c, ChainOk fs d c chain →
      ∀ x ∈ chain, 2 ≤ x ∧ x < fs.total_clusters + 2 := by
  intro chain
  induction chain with
  | nil =>
    intro c _ x hx
    exact absurd hx (List.not_mem_nil x)
  | cons c0 rest ih =>
    intro c h x hx
    obtain ⟨hc0, h2, hlt, hnotin, hrest⟩ := h
    rcases List.mem_cons.mp hx with hx0 | hxr
    · rw [hx0, ← hc0]
      exact ⟨h2, hlt⟩
    · exact ih _ hrest x hxr

/-- Helper: a well-formed chain visits no cluster twice. -/
theorem ChainOk_nodup (fs : Fat16Fs) (d : Disk) :
    ∀ chain c, ChainOk fs d c chain → chain.Nodup := by
  intro chain
  induction chain with
  | nil =>
    intro c _
    exact List.nodup_nil
  | cons c0 rest ih =>
    intro c h
    obtain ⟨hc0, _, _, hnotin, hrest⟩ := h
    exact List.nodup_cons.mpr ⟨by rw [← hc0]; exact hnotin, ih _ hrest⟩

/-- Helper: a duplicate-free list of naturals below `n` has at most `n`
elements. -/
theorem nodup_bounded_length_le (l : List Nat) (n : Nat) (hnd : l.Nodup)
    (hb : ∀ x ∈ l, x < n) : l.length ≤ n := by
  have h1 : l.toFinset.card = l.length := List.toFinset_card_of_nodup hnd
  have h2 : l.toFinset ⊆ Finset.range n := by
    intro x hx
    exact Finset.mem_range.mpr (hb x (List.mem_toFinset.mp hx))
  have h3 := Finset.card_le_card h2
  rw [Finset.card_range] at h3
  omega

/-- Helper: a well-formed chain is no longer than the cluster range. -/
theorem ChainOk_length_le (fs : Fat16Fs) (d : Disk) (c : Nat) (chain : List Nat)
    (h : ChainOk fs d c chain) : chain.length ≤ fs.total_clusters + 2 :=
  nodup_bounded_length_le chain (fs.total_clusters + 2)
    (ChainOk_nodup fs d chain c h)
    (fun x hx => (ChainOk_mem fs d chain c h x hx).2)

/-- Helper: chain well-formedness transfers to a disk whose FAT entries
agree on the chain's clusters. -/
theorem ChainOk_congr (fs : Fat16Fs) (d1 d2 : Disk) :
    ∀ chain c, ChainOk fs d1 c chain →
      (∀ x ∈ chain, fat_disk_entry fs d2 x = fat_disk_entry fs d1 x) →
      ChainOk fs d2 c chain := by
  intro chain
  induction chain with
  | nil =>
    intro c h _
    exact h
  | cons c0 rest ih =>
    intro c h hagree
    obtain ⟨hc0, h2, hlt, hnotin, hrest⟩ := h
    refine ⟨hc0, h2, hlt, hnotin, ?_⟩
    rw [hagree c (by rw [hc0]; exact List.mem_cons_self c0 rest)]
    exact ih _ hrest (fun x hx => hagree x (List.mem_cons_of_mem _ hx))

/-- Helper: freeing a well-formed chain keeps the cache coherent and
never touches the root directory or data area. -/
theorem fat16_free_chain_spec (fs : Fat16Fs) (hg : FsGeomOk fs) :
    ∀ chain st c fuel, ChainOk fs st.disk c chain → CacheOk fs st →
      chain.length < fuel →
      CacheOk fs (fat16_free_chain fs st c fuel) ∧
      ∀ sec off, fs.root_dir_start ≤ sec →
        (fat16_free_chain fs st c fuel).disk sec off = st.disk sec off := by
  intro chain
  induction chain with
  | nil =>
    intro st c fuel hchain hcache hfuel
    cases fuel with
    | zero => omega
    | succ f =>
      have hstop : ¬ (2 ≤ c ∧ c < FAT16_END_OF_CHAIN) := hchain
      unfold fat16_free_chain
      rw [if_neg hstop]
      exact ⟨hcache, fun _ _ _ => rfl⟩
  | cons c0 rest ih =>
    intro st c fuel hchain hcache hfuel
    obtain ⟨hc0, h2, hlt, hnotin, hrest⟩ := hchain
    cases fuel with
    | zero => simp at hfuel
    | succ f =>
      have hEOC : FAT16_END_OF_CHAIN = 0xFFF8 := rfl
      have htc := hg.tc_hi
      have hcond : 2 ≤ c ∧ c < FAT16_END_OF_CHAIN := ⟨h2, by omega⟩
      obtain ⟨hv, hd, hcA⟩ := fat_read_entry_spec fs hg st c hcache hlt
      unfold fat16_free_chain
      rw [if_pos hcond]
      rcases hE : fat_read_entry fs st c with ⟨next, st1⟩
      have hv1 : next = fat_disk_entry fs st.disk c := by rw [hE] at hv; exact hv
      have hd1 : st1.disk = st.disk := by rw [hE] at hd; exact hd
      have hcB : CacheOk fs st1 := by rw [hE] at hcA; exact hcA
      dsimp only
      have hpres2 : ∀ sec off, fs.root_dir_start ≤ sec →
          (fat_write_entry fs st1 c FAT16_FREE).disk sec off = st.disk sec off := by
        intro sec off hsec
        rw [fat_write_entry_preserve fs hg st1 c FAT16_FREE hlt sec off hsec, hd1]
      have hchain2 : ChainOk fs (fat_write_entry fs st1 c FAT16_FREE).disk next rest := by
        have hrest2 : ChainOk fs st.disk next rest := by rw [hv1]; exact hrest
        refine ChainOk_congr fs st.disk _ rest next hrest2 (fun x hx => ?_)
        have hb := ChainOk_mem fs st.disk rest next hrest2 x hx
        have hxc : x ≠ c := fun he => hnotin (he ▸ hx)
        calc fat_disk_entry fs (fat_write_entry fs st1 c FAT16_FREE).disk x
            = fat_disk_entry fs st1.disk x :=
              fat_write_entry_other fs hg st1 c FAT16_FREE x hlt hb.2 hxc
          _ = fat_disk_entry fs st.disk x := by rw [hd1]
      have hfuel2 : rest.length < f := by
        simp at hfuel
        omega
      obtain ⟨ihC, ihP⟩ := ih (fat_write_entry fs st1 c FAT16_FREE) next f hchain2
        (fat_write_entry_cache fs st1 c FAT16_FREE) hfuel2
      refine ⟨ihC, fun sec off hsec => ?_⟩
      rw [ihP sec off hsec, hpres2 sec off hsec]

/-- Helper: a valid cluster's FAT entry only depends on the first FAT
copy's sectors. -/
theorem fat_disk_entry_congr (fs : Fat16Fs) (hg : FsGeomOk fs) (d1 d2 : Disk) (c : Nat)
    (hc : c < fs.total_clusters + 2)
    (hagree : ∀ sec off, sec < fs.fat_start_sector + fs.fat_size →
      d2 sec off = d1 sec off) :
    fat_disk_entry fs d2 c = fat_disk_entry fs d1 c := by
  have h1 : c * 2 / 512 < fs.fat_size := fat_sector_lt fs hg c hc
  unfold fat_disk_entry rd16d
  rw [hagree _ _ (by omega), hagree _ _ (by omega)]

/-- Helper: the free-cluster scan reads but never writes, and a nonzero
result is a free cluster in the valid range. -/
theorem fat_find_free_cluster_aux_spec (fs : Fat16Fs) (hg : FsGeomOk fs) :
    ∀ fuel st c, CacheOk fs st → 2 ≤ c → c + fuel ≤ fs.total_clusters + 2 →
      (fat_find_free_cluster_aux fs st c fuel).2.disk = st.disk ∧
      CacheOk fs (fat_find_free_cluster_aux fs st c fuel).2 ∧
      ((fat_find_free_cluster_aux fs st c fuel).1 ≠ 0 →
        2 ≤ (fat_find_free_cluster_aux fs st c fuel).1 ∧
        (fat_find_free_cluster_aux fs st c fuel).1 < fs.total_clusters + 2 ∧
        fat_disk_entry fs st.disk (fat_find_free_cluster_aux fs st c fuel).1 =
          FAT16_FREE) := by
  intro fuel
  induction fuel with
  | zero =>
    intro st c hcache h2 hle
    exact ⟨rfl, hcache, fun h0 => absurd rfl h0⟩
  | succ f ih =>
    intro st c hcache h2 hle
    have hc : c < fs.total_clusters + 2 := by omega
    obtain ⟨hv, hd, hcA⟩ := fat_read_entry_spec fs hg st c hcache hc
    unfold fat_find_free_cluster_aux
    rcases hE : fat_read_entry fs st c with ⟨v, st1⟩
    have hv1 : v = fat_disk_entry fs st.disk c := by rw [hE] at hv; exact hv
    have hd1 : st1.disk = st.disk := by rw [hE] at hd; exact hd
    have hcB : CacheOk fs st1 := by rw [hE] at hcA; exact hcA
    dsimp only
    by_cases hfree : v = FAT16_FREE
    · rw [if_pos hfree]
      exact ⟨hd1, hcB, fun _ => ⟨h2, hc, by rw [← hv1]; exact hfree⟩⟩
    · rw [if_neg hfree]
      obtain ⟨ihd, ihc, ihr⟩ := ih st1 (c + 1) hcB (by omega) (by omega)
      refine ⟨by rw [ihd, hd1], ihc, fun h0 => ?_⟩
      obtain ⟨a, b, hfat⟩ := ihr h0
      exact ⟨a, b, by rw [← hd1]; exact hfat⟩

/-- Helper: restatement of the scan spec for `fat_find_free_cluster`. -/
theorem fat_find_free_cluster_spec (fs : Fat16Fs) (hg : FsGeomOk fs) (st : Fat16St)
    (hcache : CacheOk fs st) :
    (fat_find_free_cluster fs st).2.disk = st.disk ∧
    CacheOk fs (fat_find_free_cluster fs st).2 ∧
    ((fat_find_free_cluster fs st).1 ≠ 0 →
      2 ≤ (fat_find_free_cluster fs st).1 ∧
      (fat_find_free_cluster fs st).1 < fs.total_clusters + 2 ∧
      fat_disk_entry fs st.disk (fat_find_free_cluster fs st).1 = FAT16_FREE) := by
  unfold fat_find_free_cluster
  exact fat_find_free_cluster_aux_spec fs hg fs.total_clusters st 2 hcache
    (by omega) (by omega)

/-- Helper: indexing into a prefix is indexing into the list. -/
theorem getD_take_eq : ∀ (l : List Nat) (m k : Nat), k < m →
    (l.take m).getD k 0 = l.getD k 0 := by
  intro l
  induction l with
  | nil =>
    intro m k h
    simp
  | cons a as ih =>
    intro m k h
    cases m with
    | zero => omega
    | succ m =>
      cases k with
      | zero => simp
      | succ k =>
        simp only [List.take_succ_cons, List.getD_cons_succ]
        exact ih m k (by omega)

/-- Helper: indexing into a suffix shifts the index. -/
theorem getD_drop_eq : ∀ (l : List Nat) (m k : Nat),
    (l.drop m).getD k 0 = l.getD (m + k) 0 := by
  intro l
  induction l with
  | nil =>
    intro m k
    simp
  | cons a as ih =>
    intro m k
    cases m with
    | zero => simp
    | succ m =>
      simp only [List.drop_succ_cons]
      rw [ih m k]
      have hmk : m + 1 + k = (m + k) + 1 := by omega
      rw [hmk, List.getD_cons_succ]

/-- Helper: reading `copy` bytes off a sector that holds a chunk's
prefix reproduces that prefix. -/
theorem map_range_eq_take (d : Disk) (sec copy : Nat) (chunk : List Nat)
    (hcopy : copy ≤ chunk.length)
    (hdata : ∀ k, k < copy → d sec k = chunk.getD k 0) :
    (List.range copy).map (fun o => d sec o) = chunk.take copy := by
  apply List.ext_getElem
  · simp only [List.length_map, List.length_range, List.length_take]
    omega
  · intro n h1 h2
    simp only [List.getElem_map, List.getElem_range, List.getElem_take]
    rw [hdata n (by simpa using h1)]
    rw [List.getD_eq_getElem]

/-- Helper: the data-write loop consumes 512 bytes per sector, writes
outside `[secBase + i, secBase + i + cnt)` nothing, and lays the payload
bytes down sequentially. -/
theorem write_sectors_loop_spec (secBase : Nat) :
    ∀ cnt d i bytes,
      (write_sectors_loop d secBase i cnt bytes).2 = bytes.drop (512 * cnt) ∧
      (∀ sec off, sec < secBase + i ∨ secBase + i + cnt ≤ sec →
        (write_sectors_loop d secBase i cnt bytes).1 sec off = d sec off) ∧
      (∀ k, k < min bytes.length (512 * cnt) →
        (write_sectors_loop d secBase i cnt bytes).1 (secBase + i + k / 512) (k % 512) =
          bytes.getD k 0) := by
  intro cnt
  induction cnt with
  | zero =>
    intro d i bytes
    refine ⟨?_, fun sec off _ => rfl, fun k hk => absurd hk (by omega)⟩
    show bytes = bytes.drop (512 * 0)
    simp
  | succ cnt ih =>
    intro d i bytes
    by_cases hb : bytes = []
    · subst hb
      refine ⟨by simp [write_sectors_loop], fun sec off h => by simp [write_sectors_loop],
        fun k hk => by simp at hk⟩
    · have hstep : write_sectors_loop d secBase i (cnt + 1) bytes =
          write_sectors_loop
            (write_sector d (secBase + i) (fun o => (bytes.take 512).getD o 0))
            secBase (i + 1) cnt (bytes.drop 512) := by
        show (if bytes = [] then (d, bytes)
          else
            let content := fun o => (bytes.take 512).getD o 0
            write_sectors_loop (write_sector d (secBase + i) content) secBase (i + 1)
              cnt (bytes.drop 512)) = _
        rw [if_neg hb]
      obtain ⟨ih2, ihP, ihD⟩ := ih
        (write_sector d (secBase + i) (fun o => (bytes.take 512).getD o 0))
        (i + 1) (bytes.drop 512)
      refine ⟨?_, ?_, ?_⟩
      · rw [hstep, ih2, List.drop_drop]
        congr 1
        ring
      · intro sec off hsec
        rw [hstep, ihP sec off (by omega)]
        unfold write_sector
        rw [if_neg (by omega)]
      · intro k hk
        by_cases hk5 : k < 512
        · have hsec : secBase + i + k / 512 = secBase + i := by omega
          have hoff : k % 512 = k := by omega
          rw [hstep, hsec, hoff, ihP (secBase + i) k (by omega)]
          unfold write_sector
          rw [if_pos rfl]
          exact getD_take_eq bytes 512 k hk5
        · have hlen : (bytes.drop 512).length = bytes.length - 512 := by
            simp
          have hk2 : k - 512 < min (bytes.drop 512).length (512 * cnt) := by
            rw [hlen]
            omega
          have hsec : secBase + i + k / 512 = secBase + (i + 1) + (k - 512) / 512 := by
            omega
          have hoff : k % 512 = (k - 512) % 512 := by omega
          rw [hstep, hsec, hoff, ihD (k - 512) hk2, getD_drop_eq]
          congr 1
          omega

/-- Helper: the data-read loop returns exactly the chunk the sectors
hold, decrementing `remaining` by the cluster's capacity. -/
theorem read_sectors_loop_spec (d : Disk) (secBase : Nat) :
    ∀ cnt i acc remaining chunk, chunk.length = min remaining (512 * cnt) →
      (∀ k, k < chunk.length → d (secBase + i + k / 512) (k % 512) = chunk.getD k 0) →
      read_sectors_loop d secBase i cnt remaining acc =
        (acc ++ chunk, remaining - 512 * cnt) := by
  intro cnt
  induction cnt with
  | zero =>
    intro i acc remaining chunk hlen hdata
    have hchunk : chunk = [] := List.length_eq_zero.mp (by omega)
    subst hchunk
    show (acc, remaining) = (acc ++ [], remaining - 512 * 0)
    simp
  | succ cnt ih =>
    intro i acc remaining chunk hlen hdata
    by_cases hr : remaining = 0
    · have hchunk : chunk = [] := List.length_eq_zero.mp (by omega)
      subst hchunk
      subst hr
      unfold read_sectors_loop
      rw [if_pos rfl]
      simp
    · unfold read_sectors_loop
      rw [if_neg hr]
      dsimp only
      have hcopy_le : min remaining 512 ≤ chunk.length := by omega
      have hmap : (List.range (min remaining 512)).map (fun o => d (secBase + i) o) =
          chunk.take (min remaining 512) := by
        apply map_range_eq_take d (secBase + i) _ chunk hcopy_le
        intro k hk
        have h1 := hdata k (by omega)
        have h2 : k / 512 = 0 := Nat.div_eq_of_lt (by omega)
        have h3 : k % 512 = k := Nat.mod_eq_of_lt (by omega)
        rw [h2, Nat.add_zero, h3] at h1
        exact h1
      rw [hmap]
      have hlen2 : (chunk.drop (min remaining 512)).length =
          min (remaining - min remaining 512) (512 * cnt) := by
        rw [List.length_drop]
        omega
      have hdata2 : ∀ k, k < (chunk.drop (min remaining 512)).length →
          d (secBase + (i + 1) + k / 512) (k % 512) =
            (chunk.drop (min remaining 512)).getD k 0 := by
        intro k hk
        have h512 : min remaining 512 = 512 := by
          rw [List.length_drop] at hk
          omega
        rw [getD_drop_eq]
        have h1 := hdata (512 + k) (by rw [List.length_drop] at hk; omega)
        have hsec : secBase + i + (512 + k) / 512 = secBase + (i + 1) + k / 512 := by
          omega
        have hoff : (512 + k) % 512 = k % 512 := by omega
        rw [hsec, hoff] at h1
        rw [h512]
        exact h1
      rw [ih (i + 1) (acc ++ chunk.take (min remaining 512))
        (remaining - min remaining 512) (chunk.drop (min remaining 512)) hlen2 hdata2]
      have hsub : remaining - min remaining 512 - 512 * cnt =
          remaining - 512 * (cnt + 1) := by omega
      rw [List.append_assoc, List.take_append_drop, hsub]

/-- Helper: data areas of increasing clusters start at increasing
sectors, one cluster apart. -/
theorem cluster_to_sector_mono (fs : Fat16Fs) (x c : Nat) (h2x : 2 ≤ x) (hxc : x < c) :
    cluster_to_sector fs x + fs.sectors_per_cluster ≤ cluster_to_sector fs c := by
  unfold cluster_to_sector
  have h2 : ((x - 2) + 1) * fs.sectors_per_cluster ≤ (c - 2) * fs.sectors_per_cluster :=
    Nat.mul_le_mul_right _ (by omega)
  have h3 : ((x - 2) + 1) * fs.sectors_per_cluster =
      (x - 2) * fs.sectors_per_cluster + fs.sectors_per_cluster := by ring
  omega

/-- Helper: the first FAT copy ends at or before the root directory. -/
theorem fat_area_below_root (fs : Fat16Fs) (hg : FsGeomOk fs) :
    fs.fat_start_sector + fs.fat_size ≤ fs.root_dir_start := by
  have h1 := hg.fat_before_root
  have h2 : 1 * fs.fat_size ≤ fs.num_fats * fs.fat_size :=
    Nat.mul_le_mul_right _ hg.nf_pos
  omega

/-- Helper: every cluster's data area lies at or after the data start. -/
theorem data_start_le_cts (fs : Fat16Fs) (c : Nat) :
    fs.data_start_sector ≤ cluster_to_sector fs c :=
  Nat.le_add_right _ _

/-- Helper: full specification of the allocate-and-fill loop of
`fat16_write_file`.  On success it leaves a freshly written chain
holding the payload, keeps the cache coherent, never touches the root
directory, and preserves the FAT entries and data sectors of every
cluster that was already in use (the previous chain link only has its
FAT entry redirected to the new chain's head). -/
theorem fat16_alloc_write_spec (fs : Fat16Fs) (hg : FsGeomOk fs) :
    ∀ fuel bytes st first prev r st2,
      fat16_alloc_write fs st bytes first prev fuel = (r, st2) →
      CacheOk fs st →
      bytes.length < fuel →
      (prev ≠ 0 → 2 ≤ prev ∧ prev < fs.total_clusters + 2 ∧
        fat_disk_entry fs st.disk prev ≠ FAT16_FREE) →
      CacheOk fs st2 ∧
      (∀ sec off, fs.root_dir_start ≤ sec → sec < fs.data_start_sector →
        st2.disk sec off = st.disk sec off) ∧
      (∀ x, 2 ≤ x → x < fs.total_clusters + 2 →
        fat_disk_entry fs st.disk x ≠ FAT16_FREE → x ≠ prev →
        fat_disk_entry fs st2.disk x = fat_disk_entry fs st.disk x ∧
        ∀ sec off, cluster_to_sector fs x ≤ sec →
          sec < cluster_to_sector fs x + fs.sectors_per_cluster →
          st2.disk sec off = st.disk sec off) ∧
      (prev ≠ 0 → ∀ sec off, cluster_to_sector fs prev ≤ sec →
        sec < cluster_to_sector fs prev + fs.sectors_per_cluster →
        st2.disk sec off = st.disk sec off) ∧
      (∀ fo, r = some fo →
        (bytes = [] → st2 = st ∧ fo = first) ∧
        (bytes ≠ [] → ∃ c, 2 ≤ c ∧ c < fs.total_clusters + 2 ∧
          fo = (if first = 0 then c else first) ∧
          WrittenChain fs st2.disk c bytes ∧
          (prev ≠ 0 → fat_disk_entry fs st2.disk prev = c))) := by
  intro fuel
  induction fuel with
  | zero =>
    intro bytes st first prev r st2 heq hcache hfuel hprev
    exact absurd hfuel (Nat.not_lt_zero _)
  | succ f ih =>
    intro bytes st first prev r st2 heq hcache hfuel hprev
    by_cases hb : bytes = []
    · subst hb
      unfold fat16_alloc_write at heq
      rw [if_pos rfl] at heq
      injection heq with h1 h2
      subst h1
      subst h2
      refine ⟨hcache, fun _ _ _ _ => rfl, fun x _ _ _ _ => ⟨rfl, fun _ _ _ _ => rfl⟩,
        fun _ _ _ _ _ => rfl, fun fo hfo => ⟨fun _ => ⟨rfl, ?_⟩, fun habs => absurd rfl habs⟩⟩
      exact (Option.some.inj hfo).symm
    · have hlen_pos : bytes.length ≠ 0 := fun h0 => hb (List.length_eq_zero.mp h0)
      unfold fat16_alloc_write at heq
      rw [if_neg hb] at heq
      rcases hF : fat_find_free_cluster fs st with ⟨cluster, st1⟩
      rw [hF] at heq
      dsimp only at heq
      obtain ⟨hFd, hFc, hFr⟩ := fat_find_free_cluster_spec fs hg st hcache
      have hd1 : st1.disk = st.disk := by rw [hF] at hFd; exact hFd
      have hc1 : CacheOk fs st1 := by rw [hF] at hFc; exact hFc
      have hr1 : cluster ≠ 0 → 2 ≤ cluster ∧ cluster < fs.total_clusters + 2 ∧
          fat_disk_entry fs st.disk cluster = FAT16_FREE := by
        rw [hF] at hFr; exact hFr
      by_cases hcl : cluster = 0
      · rw [if_pos hcl] at heq
        injection heq with h1 h2
        subst h1
        subst h2
        refine ⟨hc1, fun sec off _ _ => by rw [hd1],
          fun x _ _ _ _ => ⟨by rw [hd1], fun sec off _ _ => by rw [hd1]⟩,
          fun _ sec off _ _ => by rw [hd1], fun fo hfo => by simp at hfo⟩
      · rw [if_neg hcl] at heq
        obtain ⟨hcl2, hcllt, hclfree⟩ := hr1 hcl
        have htc := hg.tc_hi
        have hF0 : FAT16_FREE = 0 := rfl
        set stA := (if prev ≠ 0 then fat_write_entry fs st1 prev cluster else st1)
          with hstA
        set stB := fat_write_entry fs stA cluster FAT16_END_OF_CHAIN with hstB
        rcases hW : write_sectors_loop stB.disk (cluster_to_sector fs cluster) 0
            fs.sectors_per_cluster bytes with ⟨d1, rest⟩
        rw [hW] at heq
        dsimp only at heq
        have hAdisk : ∀ sec off, fs.root_dir_start ≤ sec →
            stA.disk sec off = st.disk sec off := by
          rw [hstA]
          by_cases hp : prev ≠ 0
          · rw [if_pos hp]
            intro sec off hsec
            rw [fat_write_entry_preserve fs hg st1 prev cluster (hprev hp).2.1 sec off hsec,
              hd1]
          · rw [if_neg hp]
            intro sec off _
            rw [hd1]
        have hAfat : ∀ x, x < fs.total_clusters + 2 → x ≠ prev →
            fat_disk_entry fs stA.disk x = fat_disk_entry fs st.disk x := by
          intro x hx hxp
          rw [hstA]
          by_cases hp : prev ≠ 0
          · rw [if_pos hp,
              fat_write_entry_other fs hg st1 prev cluster x (hprev hp).2.1 hx hxp, hd1]
          · rw [if_neg hp, hd1]
        have hAprev : prev ≠ 0 → fat_disk_entry fs stA.disk prev = cluster := by
          intro hp
          rw [hstA, if_pos hp,
            fat_write_entry_self fs hg st1 prev cluster (hprev hp).2.1]
          omega
        have hBdisk : ∀ sec off, fs.root_dir_start ≤ sec →
            stB.disk sec off = st.disk sec off := by
          intro sec off hsec
          rw [hstB,
            fat_write_entry_preserve fs hg stA cluster FAT16_END_OF_CHAIN hcllt sec off hsec]
          exact hAdisk sec off hsec
        have hBself : fat_disk_entry fs stB.disk cluster = FAT16_END_OF_CHAIN := by
          rw [hstB, fat_write_entry_self fs hg stA cluster FAT16_END_OF_CHAIN hcllt]
          decide
        have hBfat : ∀ x, x < fs.total_clusters + 2 → x ≠ cluster →
            fat_disk_entry fs stB.disk x = fat_disk_entry fs stA.disk x := by
          intro x hx hxc
          rw [hstB]
          exact fat_write_entry_other fs hg stA cluster FAT16_END_OF_CHAIN x hcllt hx hxc
        obtain ⟨hW2raw, hWpraw, hWdraw⟩ := write_sectors_loop_spec
          (cluster_to_sector fs cluster) fs.sectors_per_cluster stB.disk 0 bytes
        have hrest : rest = bytes.drop (512 * fs.sectors_per_cluster) := by
          rw [hW] at hW2raw; exact hW2raw
        have hWp : ∀ sec off, sec < cluster_to_sector fs cluster ∨
            cluster_to_sector fs cluster + fs.sectors_per_cluster ≤ sec →
            d1 sec off = stB.disk sec off := by
          intro sec off hsec
          have h0 := hWpraw sec off (by omega)
          rw [hW] at h0
          exact h0
        have hWd : ∀ k, k < min bytes.length (512 * fs.sectors_per_cluster) →
            d1 (cluster_to_sector fs cluster + k / 512) (k % 512) = bytes.getD k 0 := by
          intro k hk
          have h0 := hWdraw k hk
          rw [hW, Nat.add_zero] at h0
          exact h0
        have hd1fat : ∀ x, x < fs.total_clusters + 2 →
            fat_disk_entry fs d1 x = fat_disk_entry fs stB.disk x := by
          intro x hx
          apply fat_disk_entry_congr fs hg stB.disk d1 x hx
          intro sec off hsec
          apply hWp
          left
          have h1 := fat_area_below_root fs hg
          have h2 := hg.root_before_data
          have h3 := data_start_le_cts fs cluster
          omega
        have hCcache : CacheOk fs { stB with disk := d1 } := Or.inl rfl
        have hprev2 : cluster ≠ 0 → 2 ≤ cluster ∧ cluster < fs.total_clusters + 2 ∧
            fat_disk_entry fs ({ stB with disk := d1 } : Fat16St).disk cluster ≠
              FAT16_FREE := by
          intro _
          refine ⟨hcl2, hcllt, ?_⟩
          show fat_disk_entry fs d1 cluster ≠ FAT16_FREE
          rw [hd1fat cluster hcllt, hBself]
          decide
        have hfuel2 : rest.length < f := by
          rw [hrest, List.length_drop]
          have hspc := hg.spc_pos
          have h512 : 512 * 1 ≤ 512 * fs.sectors_per_cluster :=
            Nat.mul_le_mul_left 512 hspc
          omega
        obtain ⟨ihC, ihDir, ih5, ihPrevD, ihSome⟩ := ih rest { stB with disk := d1 }
          (if first = 0 then cluster else first) cluster r st2 heq hCcache hfuel2 hprev2
        have hDir : ∀ sec off, fs.root_dir_start ≤ sec → sec < fs.data_start_sector →
            st2.disk sec off = st.disk sec off := by
          intro sec off h1 h2
          rw [ihDir sec off h1 h2]
          show d1 sec off = st.disk sec off
          rw [hWp sec off (Or.inl (by
            have := hg.root_before_data
            have := data_start_le_cts fs cluster
            omega))]
          exact hBdisk sec off h1
        have hprevne_c : ∀ _ : prev ≠ 0, prev ≠ cluster := fun hp he =>
          (hprev hp).2.2 (by rw [he]; exact hclfree)
        have hfatp : ∀ _ : prev ≠ 0, fat_disk_entry fs d1 prev = cluster := fun hp => by
          rw [hd1fat prev (hprev hp).2.1, hBfat prev (hprev hp).2.1 (hprevne_c hp)]
          exact hAprev hp
        have hdisjp : ∀ x, 2 ≤ x → x ≠ cluster → ∀ sec, cluster_to_sector fs x ≤ sec →
            sec < cluster_to_sector fs x + fs.sectors_per_cluster →
            sec < cluster_to_sector fs cluster ∨
              cluster_to_sector fs cluster + fs.sectors_per_cluster ≤ sec := by
          intro x hx2 hxc sec hs1 hs2
          rcases Nat.lt_or_ge x cluster with hlt | hge
          · left
            have := cluster_to_sector_mono fs x cluster hx2 hlt
            omega
          · right
            have hgt : cluster < x := by omega
            have := cluster_to_sector_mono fs cluster x hcl2 hgt
            omega
        have h5 : ∀ x, 2 ≤ x → x < fs.total_clusters + 2 →
            fat_disk_entry fs st.disk x ≠ FAT16_FREE → x ≠ prev →
            fat_disk_entry fs st2.disk x = fat_disk_entry fs st.disk x ∧
            ∀ sec off, cluster_to_sector fs x ≤ sec →
              sec < cluster_to_sector fs x + fs.sectors_per_cluster →
              st2.disk sec off = st.disk sec off := by
          intro x hx2 hxlt hxnf hxp
          have hxc : x ≠ cluster := by
            intro he
            rw [he] at hxnf
            exact hxnf hclfree
          have hfatx : fat_disk_entry fs d1 x = fat_disk_entry fs st.disk x := by
            rw [hd1fat x hxlt, hBfat x hxlt hxc]
            exact hAfat x hxlt hxp
          obtain ⟨hx5f, hx5d⟩ := ih5 x hx2 hxlt
            (by show fat_disk_entry fs d1 x ≠ _; rw [hfatx]; exact hxnf) hxc
          constructor
          · rw [hx5f]
            show fat_disk_entry fs d1 x = fat_disk_entry fs st.disk x
            exact hfatx
          · intro sec off hs1 hs2
            rw [hx5d sec off hs1 hs2]
            show d1 sec off = st.disk sec off
            rw [hWp sec off (hdisjp x hx2 hxc sec hs1 hs2)]
            apply hBdisk
            have := hg.root_before_data
            have := data_start_le_cts fs x
            omega
        have hPrevD : prev ≠ 0 → ∀ sec off, cluster_to_sector fs prev ≤ sec →
            sec < cluster_to_sector fs prev + fs.sectors_per_cluster →
            st2.disk sec off = st.disk sec off := by
          intro hp sec off hs1 hs2
          obtain ⟨hp5f, hp5d⟩ := ih5 prev (hprev hp).1 (hprev hp).2.1
            (by show fat_disk_entry fs d1 prev ≠ _; rw [hfatp hp]; omega) (hprevne_c hp)
          rw [hp5d sec off hs1 hs2]
          show d1 sec off = st.disk sec off
          rw [hWp sec off (hdisjp prev (hprev hp).1 (hprevne_c hp) sec hs1 hs2)]
          apply hBdisk
          have := hg.root_before_data
          have := data_start_le_cts fs prev
          omega
        have hPrevLink : prev ≠ 0 → fat_disk_entry fs st2.disk prev = cluster := by
          intro hp
          obtain ⟨hp5f, _⟩ := ih5 prev (hprev hp).1 (hprev hp).2.1
            (by show fat_disk_entry fs d1 prev ≠ _; rw [hfatp hp]; omega) (hprevne_c hp)
          rw [hp5f]
          show fat_disk_entry fs d1 prev = cluster
          exact hfatp hp
        refine ⟨ihC, hDir, h5, hPrevD, fun fo hfo => ⟨fun habs => absurd habs hb,
          fun _ => ?_⟩⟩
        obtain ⟨ihE, ihNE⟩ := ihSome fo hfo
        by_cases hre : rest = []
        · obtain ⟨hst2, hfo2⟩ := ihE hre
          have hlenb : bytes.length ≤ fs.sectors_per_cluster * 512 := by
            have hz : (bytes.drop (512 * fs.sectors_per_cluster)).length = 0 := by
              rw [← hrest, hre]
              rfl
            rw [List.length_drop] at hz
            omega
          refine ⟨cluster, hcl2, hcllt, hfo2, ?_, hPrevLink⟩
          rw [hst2]
          refine WrittenChain.last cluster bytes hcl2 hcllt hb hlenb ?_ ?_
          · show fat_disk_entry fs d1 cluster = FAT16_END_OF_CHAIN
            rw [hd1fat cluster hcllt]
            exact hBself
          · intro k hk
            show d1 (cluster_to_sector fs cluster + k / 512) (k % 512) = bytes.getD k 0
            exact hWd k (by omega)
        · obtain ⟨c2, hc22, hc2lt, hfo2, hchain2, hlink2⟩ := ihNE hre
          have hlenb : fs.sectors_per_cluster * 512 < bytes.length := by
            have hz : (bytes.drop (512 * fs.sectors_per_cluster)).length ≠ 0 := by
              rw [← hrest]
              intro h0
              exact hre (List.length_eq_zero.mp h0)
            rw [List.length_drop] at hz
            omega
          have hfst : (if first = 0 then cluster else first) ≠ 0 := by
            by_cases hf : first = 0
            · rw [if_pos hf]; exact hcl
            · rw [if_neg hf]; exact hf
          refine ⟨cluster, hcl2, hcllt, ?_, ?_, hPrevLink⟩
          · rw [hfo2, if_neg hfst]
          · refine WrittenChain.cons cluster c2 bytes hcl2 hcllt hlenb (hlink2 hcl) ?_ ?_
            · intro k hk
              rw [List.length_take] at hk
              have hsecs : st2.disk (cluster_to_sector fs cluster + k / 512) (k % 512) =
                  d1 (cluster_to_sector fs cluster + k / 512) (k % 512) := by
                have h0 := ihPrevD hcl (cluster_to_sector fs cluster + k / 512) (k % 512)
                  (by omega) (by omega)
                exact h0
              rw [hsecs, hWd k (by omega)]
              exact (getD_take_eq bytes (fs.sectors_per_cluster * 512) k (by omega)).symm
            · have hcomm : fs.sectors_per_cluster * 512 = 512 * fs.sectors_per_cluster :=
                Nat.mul_comm _ _
              rw [hcomm, ← hrest]
              exact hchain2

/-- Helper: the chain walk with nothing left to read returns its
accumulator. -/
theorem fat16_read_chain_zero (fs : Fat16Fs) (st : Fat16St) (c : Nat) (acc : List Nat)
    (fuel : Nat) : (fat16_read_chain fs st c 0 acc fuel).1 = acc := by
  cases fuel with
  | zero => rfl
  | succ f =>
    unfold fat16_read_chain
    rw [if_pos (Or.inl rfl)]

/-- Helper: a written chain survives any disk change confined to the
sectors between the first FAT copy and the data area (in particular a
root-directory update). -/
theorem WrittenChain_congr (fs : Fat16Fs) (hg : FsGeomOk fs) (d d' : Disk)
    (hagree : ∀ sec off, (sec < fs.fat_start_sector + fs.fat_size ∨
      fs.data_start_sector ≤ sec) → d' sec off = d sec off) :
    ∀ c bytes, WrittenChain fs d c bytes → WrittenChain fs d' c bytes := by
  intro c bytes h
  induction h with
  | last c bytes h2 hlt hne hlen hfat hdata =>
    refine WrittenChain.last c bytes h2 hlt hne hlen ?_ ?_
    · rw [fat_disk_entry_congr fs hg d d' c hlt
        (fun sec off hs => hagree sec off (Or.inl hs))]
      exact hfat
    · intro k hk
      rw [hagree _ _ (Or.inr (Nat.le_trans (data_start_le_cts fs c)
        (Nat.le_add_right _ _)))]
      exact hdata k hk
  | cons c next bytes h2 hlt hlen hfat hdata hrest ih =>
    refine WrittenChain.cons c next bytes h2 hlt hlen ?_ ?_ ih
    · rw [fat_disk_entry_congr fs hg d d' c hlt
        (fun sec off hs => hagree sec off (Or.inl hs))]
      exact hfat
    · intro k hk
      rw [hagree _ _ (Or.inr (Nat.le_trans (data_start_le_cts fs c)
        (Nat.le_add_right _ _)))]
      exact hdata k hk

/-- Helper: walking a freshly written chain reads back exactly the
payload it holds. -/
theorem fat16_read_chain_spec (fs : Fat16Fs) (hg : FsGeomOk fs) :
    ∀ fuel bytes c st acc, CacheOk fs st → WrittenChain fs st.disk c bytes →
      bytes.length < fuel →
      (fat16_read_chain fs st c bytes.length acc fuel).1 = acc ++ bytes := by
  intro fuel
  induction fuel with
  | zero =>
    intro bytes c st acc _ _ hfuel
    exact absurd hfuel (Nat.not_lt_zero _)
  | succ f ih =>
    intro bytes c st acc hcache hwc hfuel
    have hEOC : FAT16_END_OF_CHAIN = 0xFFF8 := rfl
    have htc := hg.tc_hi
    have hspc := hg.spc_pos
    cases hwc with
    | last _ _ h2 hlt hne hlen hfat hdata =>
      have hne0 : bytes.length ≠ 0 := fun h0 => hne (List.length_eq_zero.mp h0)
      have hcond : ¬ (bytes.length = 0 ∨ ¬ (2 ≤ c ∧ c < FAT16_END_OF_CHAIN)) := by
        push_neg
        exact ⟨hne0, h2, by omega⟩
      unfold fat16_read_chain
      rw [if_neg hcond]
      have hdata2 : ∀ k, k < bytes.length →
          st.disk (cluster_to_sector fs c + 0 + k / 512) (k % 512) =
            bytes.getD k 0 := by
        intro k hk
        rw [Nat.add_zero]
        exact hdata k hk
      have hL := read_sectors_loop_spec st.disk (cluster_to_sector fs c)
        fs.sectors_per_cluster 0 acc bytes.length bytes (by omega) hdata2
      rw [hL]
      dsimp only
      rcases hE : fat_read_entry fs st c with ⟨next2, st1⟩
      dsimp only
      have hrem : bytes.length - 512 * fs.sectors_per_cluster = 0 := by omega
      rw [hrem]
      exact fat16_read_chain_zero fs st1 next2 (acc ++ bytes) f
    | cons _ next _ h2 hlt hlen hfat hdata hrest =>
      have hcond : ¬ (bytes.length = 0 ∨ ¬ (2 ≤ c ∧ c < FAT16_END_OF_CHAIN)) := by
        push_neg
        exact ⟨by omega, h2, by omega⟩
      unfold fat16_read_chain
      rw [if_neg hcond]
      have hchunklen : (bytes.take (fs.sectors_per_cluster * 512)).length =
          min bytes.length (512 * fs.sectors_per_cluster) := by
        rw [List.length_take]
        omega
      have hdata2 : ∀ k, k < (bytes.take (fs.sectors_per_cluster * 512)).length →
          st.disk (cluster_to_sector fs c + 0 + k / 512) (k % 512) =
            (bytes.take (fs.sectors_per_cluster * 512)).getD k 0 := by
        intro k hk
        rw [Nat.add_zero]
        exact hdata k hk
      have hL := read_sectors_loop_spec st.disk (cluster_to_sector fs c)
        fs.sectors_per_cluster 0 acc bytes.length
        (bytes.take (fs.sectors_per_cluster * 512)) hchunklen hdata2
      rw [hL]
      dsimp only
      obtain ⟨hv, hdd, hcA⟩ := fat_read_entry_spec fs hg st c hcache hlt
      rcases hE : fat_read_entry fs st c with ⟨next2, st1⟩
      have hv1 : next2 = next := by
        rw [hE] at hv
        exact hv.trans hfat
      have hdd1 : st1.disk = st.disk := by rw [hE] at hdd; exact hdd
      have hcB : CacheOk fs st1 := by rw [hE] at hcA; exact hcA
      dsimp only
      have hrem : bytes.length - 512 * fs.sectors_per_cluster =
          (bytes.drop (fs.sectors_per_cluster * 512)).length := by
        rw [List.length_drop]
        omega
      rw [hrem, hv1]
      have hwc2 : WrittenChain fs st1.disk next
          (bytes.drop (fs.sectors_per_cluster * 512)) := by
        rw [hdd1]
        exact hrest
      have hstep := ih (bytes.drop (fs.sectors_per_cluster * 512)) next st1
        (acc ++ bytes.take (fs.sectors_per_cluster * 512)) hcB hwc2
        (by
          rw [List.length_drop]
          have hpos : 0 < fs.sectors_per_cluster * 512 := Nat.mul_pos hspc (by omega)
          omega)
      rw [hstep, List.append_assoc, List.take_append_drop]

/-- Helper: the 8.3 name assembly reads only bytes 0-11 of the entry. -/
theorem entry_name_bytes_congr (d d' : Disk) (sec j : Nat)
    (h : ∀ o, o % 32 < 12 → d' sec o = d sec o) :
    entry_name_bytes d' sec j = entry_name_bytes d sec j := by
  unfold entry_name_bytes
  have e1 : (List.range 8).map (fun i => d' sec (32 * j + i)) =
      (List.range 8).map (fun i => d sec (32 * j + i)) :=
    List.map_congr_left (fun i hi => by
      have := List.mem_range.mp hi
      exact h _ (by omega))
  have e2 : d' sec (32 * j + 8) = d sec (32 * j + 8) := h _ (by omega)
  have e3 : (List.range 3).map (fun i => d' sec (32 * j + 8 + i)) =
      (List.range 3).map (fun i => d sec (32 * j + 8 + i)) :=
    List.map_congr_left (fun i hi => by
      have := List.mem_range.mp hi
      exact h _ (by omega))
  rw [e1, e2, e3]

/-- Helper: name matching reads only bytes 0-11 of the entry. -/
theorem name_matches_congr (d d' : Disk) (sec j : Nat) (name : List Nat)
    (h : ∀ o, o % 32 < 12 → d' sec o = d sec o) :
    name_matches d' sec j name = name_matches d sec j name := by
  unfold name_matches
  rw [entry_name_bytes_congr d d' sec j h]

/-- Helper: the per-sector directory scan only reads bytes 0-11 of each
32-byte entry, so it is unaffected by changes to the cluster/size
fields. -/
theorem find_in_sector_congr (d d' : Disk) (sec : Nat) (name : List Nat)
    (h : ∀ o, o % 32 < 12 → d' sec o = d sec o) :
    ∀ fuel j, find_in_sector d' sec name j fuel = find_in_sector d sec name j fuel := by
  intro fuel
  induction fuel with
  | zero => intro j; rfl
  | succ f ih =>
    intro j
    unfold find_in_sector
    dsimp only
    rw [h (32 * j) (by omega), h (32 * j + 11) (by omega),
      name_matches_congr d d' sec j name h, ih (j + 1)]

/-- Helper: congruence for the root-directory sector loop. -/
theorem fat16_find_loc_aux_congr (fs : Fat16Fs) (d d' : Disk) (name : List Nat)
    (h : ∀ sec, fs.root_dir_start ≤ sec → sec < fs.root_dir_start + fs.root_dir_sectors →
      ∀ o, o % 32 < 12 → d' sec o = d sec o) :
    ∀ fuel i, i + fuel ≤ fs.root_dir_sectors →
      fat16_find_loc_aux fs d' name i fuel = fat16_find_loc_aux fs d name i fuel := by
  intro fuel
  induction fuel with
  | zero => intro i _; rfl
  | succ f ih =>
    intro i hle
    unfold fat16_find_loc_aux
    rw [find_in_sector_congr d d' (fs.root_dir_start + i) name
      (h _ (by omega) (by omega)) 16 0]
    rcases hS : find_in_sector d (fs.root_dir_start + i) name 0 16 with j | _ | _
    · rfl
    · rfl
    · exact ih (i + 1) (by omega)

/-- Helper: an entry search touching only bytes 0-11 of the directory
entries returns the same location on both disks. -/
theorem fat16_find_loc_congr (fs : Fat16Fs) (d d' : Disk) (name : List Nat)
    (h : ∀ sec, fs.root_dir_start ≤ sec → sec < fs.root_dir_start + fs.root_dir_sectors →
      ∀ o, o % 32 < 12 → d' sec o = d sec o) :
    fat16_find_loc fs d' name = fat16_find_loc fs d name := by
  unfold fat16_find_loc
  exact fat16_find_loc_aux_congr fs d d' name h fs.root_dir_sectors 0 (by omega)

/-- Helper: a found directory entry lies inside the scanned sector
range. -/
theorem fat16_find_loc_aux_bounds (fs : Fat16Fs) (d : Disk) (name : List Nat) :
    ∀ fuel i es j, fat16_find_loc_aux fs d name i fuel = some (es, j) →
      fs.root_dir_start + i ≤ es ∧ es < fs.root_dir_start + i + fuel := by
  intro fuel
  induction fuel with
  | zero =>
    intro i es j h
    simp only [fat16_find_loc_aux] at h
    exact Option.noConfusion h
  | succ f ih =>
    intro i es j h
    unfold fat16_find_loc_aux at h
    rcases hS : find_in_sector d (fs.root_dir_start + i) name 0 16 with j2 | _ | _
    · rw [hS] at h
      dsimp only at h
      injection h with h1
      injection h1 with ha hb
      omega
    · rw [hS] at h
      dsimp only at h
      simp at h
    · rw [hS] at h
      dsimp only at h
      have := ih (i + 1) es j h
      omega

/-- Helper: a found directory entry lies inside the root directory. -/
theorem fat16_find_loc_bounds (fs : Fat16Fs) (d : Disk) (name : List Nat) (es j : Nat)
    (h : fat16_find_loc fs d name = some (es, j)) :
    fs.root_dir_start ≤ es ∧ es < fs.root_dir_start + fs.root_dir_sectors := by
  unfold fat16_find_loc at h
  have := fat16_find_loc_aux_bounds fs d name fs.root_dir_sectors 0 es j h
  omega

/-- C5: writing a file then reading it back returns the payload.  For
every mounted, geometrically sound FAT16 volume with a coherent FAT
cache, if the name resolves to a regular (non-directory) directory
entry whose existing cluster chain is well formed, and
`fat16_write_file` succeeds on a payload `P` (of length below `2^32`,
the width of the on-disk size field), then `fat16_read_file` with any
`maxSize ≥ P.length` returns exactly `P.length` bytes equal to `P`. -/
theorem fat16_write_read_roundtrip (fs : Fat16Fs) (st : Fat16St)
    (name P : List Nat) (maxSize es j : Nat) (oldChain : List Nat)
    (hg : FsGeomOk fs) (hcache : CacheOk fs st)
    (hfind : fat16_find_loc fs st.disk name = some (es, j))
    (hattr : dir_attr st.disk es j &&& FAT_ATTR_DIRECTORY = 0)
    (hchain : ChainOk fs st.disk (dir_cluster_lo st.disk es j) oldChain)
    (hlen32 : P.length < 4294967296)
    (hmax : P.length ≤ maxSize)
    (hsucc : (fat16_write_file fs st name P).1.isSome = true) :
    (fat16_read_file fs (fat16_write_file fs st name P).2 name maxSize).1 =
      some (P.length, P) := by
  have hm : fs.mounted = true := hg.mounted
  have htc := hg.tc_hi
  have hbnd := fat16_find_loc_bounds fs st.disk name es j hfind
  have hrbd := hg.root_before_data
  have hfar := fat_area_below_root fs hg
  have hesd : es < fs.data_start_sector := by omega
  rcases hw : fat16_write_file fs st name P with ⟨wr, stW⟩
  rw [hw] at hsucc
  dsimp only at hsucc ⊢
  unfold fat16_write_file at hw
  rw [hm] at hw
  rw [if_neg (by simp)] at hw
  rw [hfind] at hw
  dsimp only at hw
  set st1 := (if 2 ≤ dir_cluster_lo st.disk es j then
    fat16_free_chain fs st (dir_cluster_lo st.disk es j) 65536 else st) with hst1
  have hfree : CacheOk fs st1 ∧ ∀ sec off, fs.root_dir_start ≤ sec →
      st1.disk sec off = st.disk sec off := by
    rw [hst1]
    by_cases h2c : 2 ≤ dir_cluster_lo st.disk es j
    · rw [if_pos h2c]
      have hlenchain : oldChain.length < 65536 := by
        have := ChainOk_length_le fs st.disk _ oldChain hchain
        omega
      exact fat16_free_chain_spec fs hg oldChain st (dir_cluster_lo st.disk es j)
        65536 hchain hcache hlenchain
    · rw [if_neg h2c]
      exact ⟨hcache, fun _ _ _ => rfl⟩
  obtain ⟨hc1, hp1⟩ := hfree
  rcases halloc : fat16_alloc_write fs st1 P 0 0 (P.length + 1) with ⟨ar, stA2⟩
  rw [halloc] at hw
  cases ar with
  | none =>
    dsimp only at hw
    injection hw with h1 h2
    rw [← h1] at hsucc
    simp at hsucc
  | some first =>
    dsimp only at hw
    injection hw with h1 h2
    subst h2
    obtain ⟨hC2, hDir2, h52, hPD2, hSome2⟩ := fat16_alloc_write_spec fs hg
      (P.length + 1) P st1 0 0 (some first) stA2 halloc hc1 (by omega)
      (fun h0 => absurd rfl h0)
    obtain ⟨hEmptyCase, hNECase⟩ := hSome2 first rfl
    have hDirSt : ∀ sec off, fs.root_dir_start ≤ sec → sec < fs.data_start_sector →
        stA2.disk sec off = st.disk sec off := by
      intro sec off hs1 hs2
      rw [hDir2 sec off hs1 hs2]
      exact hp1 sec off hs1
    have hfirstlt : first < 65536 := by
      by_cases hP : P = []
      · rw [(hEmptyCase hP).2]
        omega
      · obtain ⟨c, hcc2, hcclt, hfoeq, _, _⟩ := hNECase hP
        rw [hfoeq, if_pos rfl]
        omega
    set dF := write_sector stA2.disk es (fun o =>
      if o = 32 * j + 26 then first % 256
      else if o = 32 * j + 27 then first / 256 % 256
      else if o = 32 * j + 28 then P.length % 256
      else if o = 32 * j + 29 then P.length / 256 % 256
      else if o = 32 * j + 30 then P.length / 65536 % 256
      else if o = 32 * j + 31 then P.length / 16777216 % 256
      else stA2.disk es o) with hdF
    have hdF_at : ∀ o, dF es o =
        (if o = 32 * j + 26 then first % 256
        else if o = 32 * j + 27 then first / 256 % 256
        else if o = 32 * j + 28 then P.length % 256
        else if o = 32 * j + 29 then P.length / 256 % 256
        else if o = 32 * j + 30 then P.length / 65536 % 256
        else if o = 32 * j + 31 then P.length / 16777216 % 256
        else stA2.disk es o) := by
      intro o
      rw [hdF]
      unfold write_sector
      rw [if_pos rfl]
    have hdF_other : ∀ sec, sec ≠ es → ∀ o, dF sec o = stA2.disk sec o := by
      intro sec hne o
      rw [hdF]
      unfold write_sector
      rw [if_neg hne]
    have hsizeF : dir_file_size dF es j = P.length := by
      have hb0 : dF es (32 * j + 28) = P.length % 256 := by
        rw [hdF_at, if_neg (by omega), if_neg (by omega), if_pos rfl]
      have hb1 : dF es (32 * j + 28 + 1) = P.length / 256 % 256 := by
        rw [hdF_at, if_neg (by omega), if_neg (by omega), if_neg (by omega),
          if_pos (by omega)]
      have hb2 : dF es (32 * j + 28 + 2) = P.length / 65536 % 256 := by
        rw [hdF_at, if_neg (by omega), if_neg (by omega), if_neg (by omega),
          if_neg (by omega), if_pos (by omega)]
      have hb3 : dF es (32 * j + 28 + 3) = P.length / 16777216 % 256 := by
        rw [hdF_at, if_neg (by omega), if_neg (by omega), if_neg (by omega),
          if_neg (by omega), if_neg (by omega), if_pos (by omega)]
      unfold dir_file_size rd32d
      rw [hb0, hb1, hb2, hb3]
      omega
    have hcluF : dir_cluster_lo dF es j = first := by
      have hb0 : dF es (32 * j + 26) = first % 256 := by
        rw [hdF_at, if_pos rfl]
      have hb1 : dF es (32 * j + 26 + 1) = first / 256 % 256 := by
        rw [hdF_at, if_neg (by omega), if_pos (by omega)]
      unfold dir_cluster_lo rd16d
      rw [hb0, hb1]
      omega
    have hattrF : dir_attr dF es j = dir_attr st.disk es j := by
      have hb : dF es (32 * j + 11) = stA2.disk es (32 * j + 11) := by
        rw [hdF_at, if_neg (by omega), if_neg (by omega), if_neg (by omega),
          if_neg (by omega), if_neg (by omega), if_neg (by omega)]
      unfold dir_attr
      rw [hb]
      exact hDirSt es (32 * j + 11) hbnd.1 hesd
    have hfindF : fat16_find_loc fs dF name = some (es, j) := by
      rw [fat16_find_loc_congr fs st.disk dF name (by
        intro sec hs1 hs2 o ho
        by_cases hse : sec = es
        · subst hse
          rw [hdF_at, if_neg (by omega), if_neg (by omega), if_neg (by omega),
            if_neg (by omega), if_neg (by omega), if_neg (by omega)]
          exact hDirSt sec o hs1 (by omega)
        · rw [hdF_other sec hse o]
          exact hDirSt sec o hs1 (by omega))]
      exact hfind
    have hCF : CacheOk fs ({ stA2 with disk := dF } : Fat16St) := by
      apply CacheOk_congr fs stA2 dF hC2
      intro sec off hsec
      apply hdF_other
      omega
    unfold fat16_read_file
    rw [hm]
    rw [if_neg (by simp)]
    dsimp only
    rw [hfindF]
    dsimp only
    rw [if_neg (by
      intro hno
      exact hno (by rw [hattrF]; exact hattr))]
    dsimp only
    rw [hsizeF, hcluF, Nat.min_eq_left hmax]
    by_cases hP : P = []
    · subst hP
      simp only [List.length_nil]
      rcases hR : fat16_read_chain fs { stA2 with disk := dF } first 0 [] (0 + 1)
        with ⟨bytesR, stR⟩
      have hbr : bytesR = [] := by
        have h0 := fat16_read_chain_zero fs { stA2 with disk := dF } first [] (0 + 1)
        rw [hR] at h0
        exact h0
      dsimp only
      rw [hbr]
    · obtain ⟨c, hcc2, hcclt, hfoeq, hwchain, _⟩ := hNECase hP
      have hfirstc : first = c := by rw [hfoeq, if_pos rfl]
      subst hfirstc
      have hwcF : WrittenChain fs dF first P := by
        refine WrittenChain_congr fs hg stA2.disk dF ?_ first P hwchain
        intro sec off hsec
        apply hdF_other
        omega
      rcases hR : fat16_read_chain fs { stA2 with disk := dF } first P.length []
        (P.length + 1) with ⟨bytesR, stR⟩
      have hbr : bytesR = P := by
        have h0 := fat16_read_chain_spec fs hg (P.length + 1) P first
          { stA2 with disk := dF } [] hCF hwcF (by omega)
        rw [hR] at h0
        rw [List.nil_append] at h0
        exact h0
      dsimp only
      rw [hbr]

/-- Witness for the round trip on a concrete minimal volume: one FAT
copy of 256 sectors, one root-directory sector holding the file `A`
(attribute 0x20, empty chain), cluster size one sector; writing the
two-byte payload `hi` and reading it back with `max_size = 2` returns
exactly those bytes. -/
theorem fat16_write_read_roundtrip_witness :
    (fat16_read_file
      (⟨true, 0, 512, 1, 1, 1, 16, 256, 4343, 1, 257, 1, 258, 4085⟩ : Fat16Fs)
      (fat16_write_file
        (⟨true, 0, 512, 1, 1, 1, 16, 256, 4343, 1, 257, 1, 258, 4085⟩ : Fat16Fs)
        (⟨fun sec off => if sec = 257 ∧ off = 0 then 65
            else if sec = 257 ∧ 1 ≤ off ∧ off ≤ 11 then 32 else 0,
          FAT_CACHE_INVALID, fun _ => 0⟩ : Fat16St)
        [65] [104, 105]).2
      [65] 2).1 = some (2, [104, 105]) :=
  fat16_write_read_roundtrip
    (⟨true, 0, 512, 1, 1, 1, 16, 256, 4343, 1, 257, 1, 258, 4085⟩ : Fat16Fs)
    (⟨fun sec off => if sec = 257 ∧ off = 0 then 65
        else if sec = 257 ∧ 1 ≤ off ∧ off ≤ 11 then 32 else 0,
      FAT_CACHE_INVALID, fun _ => 0⟩ : Fat16St)
    [65] [104, 105] 2 257 0 []
    (by refine ⟨?_, ?_, ?_, ?_, ?_, ?_, ?_, ?_, ?_⟩ <;> decide)
    (Or.inl rfl)
    (by decide)
    (by decide)
    (fun h => absurd h.1 (by decide))
    (by decide)
    (by decide)
    rfl

end Cgos

namespace Cgos

/-! ## Theorems for claims C10 and C7 -/

/-- C10.  The keyboard ring buffer never overwrites unread characters:
for every push into the 64-entry ring, if 63 characters are already
pending (buffer full) the incoming character is discarded and the head
index, tail index, and buffered contents are unchanged; otherwise the
character is stored at the head slot and only the head index advances. -/
theorem keyboard_buffer_put_no_overwrite (s : KeyboardState) (c : Nat)
    (hh : s.head < 64) (ht : s.tail < 64) :
    (kbdPending s = 63 → buffer_put s c = s) ∧
    (kbdPending s ≠ 63 →
      (buffer_put s c).head = (s.head + 1) % 64 ∧
      (buffer_put s c).tail = s.tail ∧
      (buffer_put s c).buf s.head = c ∧
      ∀ i, i ≠ s.head → (buffer_put s c).buf i = s.buf i) := by
  have hiff : kbdPending s = 63 ↔ (s.head + 1) % KEY_BUFFER_SIZE = s.tail := by
    unfold kbdPending KEY_BUFFER_SIZE
    omega
  constructor
  · intro hfull
    unfold buffer_put
    rw [if_neg (by simpa using hiff.mp hfull)]
  · intro hnot
    have hne : (s.head + 1) % KEY_BUFFER_SIZE ≠ s.tail := fun h => hnot (hiff.mpr h)
    unfold buffer_put
    rw [if_pos hne]
    refine ⟨rfl, rfl, by simp, ?_⟩
    intro i hi
    simp [hi]

/-- Closed witness for `keyboard_buffer_put_no_overwrite`: on a full ring
(head 63, tail 0, 63 pending characters) a push of character 65 is a
no-op. -/
theorem keyboard_buffer_put_no_overwrite_witness :
    buffer_put ⟨fun _ => 0, 63, 0⟩ 65 = ⟨fun _ => 0, 63, 0⟩ :=
  (keyboard_buffer_put_no_overwrite ⟨fun _ => 0, 63, 0⟩ 65 (by decide) (by decide)).1 (by decide)

/-- C7.  With the driver initialized, `e1000_send_packet` fails (returns
-1 without transmitting or advancing the ring) exactly when the length
is 0, exceeds 2048, or the current TX descriptor lacks the descriptor
done bit; otherwise it copies the data into the TX buffer at the cursor,
sets the descriptor length, sets command end-of-packet, insert-FCS and
report-status, clears the status, and advances the tail by writing TDT. -/
theorem e1000_send_packet_spec (s : E1000State) (data : List Nat)
    (hinit : s.initialized = true) :
    ((e1000_send_packet s data).1 = -1 ↔
      (data.length = 0 ∨ data.length > 2048 ∨
        (s.txDesc s.txCur).status &&& E1000_TXD_STAT_DD = 0)) ∧
    (¬ (data.length = 0 ∨ data.length > 2048 ∨
        (s.txDesc s.txCur).status &&& E1000_TXD_STAT_DD = 0) →
      ((e1000_send_packet s data).1 = (data.length : Int) ∧
       ((e1000_send_packet s data).2.txDesc s.txCur).length = data.length ∧
       ((e1000_send_packet s data).2.txDesc s.txCur).cmd = 0x0B ∧
       ((e1000_send_packet s data).2.txDesc s.txCur).status = 0 ∧
       (∀ o, o < data.length → (e1000_send_packet s data).2.txBuffers s.txCur o = data.getD o 0) ∧
       (e1000_send_packet s data).2.txCur = (s.txCur + 1) % 32 ∧
       (e1000_send_packet s data).2.regWrites =
         s.regWrites ++ [(E1000_TDT, (s.txCur + 1) % 32)]) ∧
      (∀ i, i ≠ s.txCur → (e1000_send_packet s data).2.txDesc i = s.txDesc i)) := by
  have hbuf : E1000_BUFFER_SIZE = 2048 := rfl
  constructor
  · constructor
    · intro hfail
      by_contra hnone
      push_neg at hnone
      obtain ⟨h0, h2048, hdd⟩ := hnone
      have hguard : ¬ (¬ s.initialized ∨ data.length = 0 ∨ data.length > E1000_BUFFER_SIZE) := by
        rintro (h | h | h)
        · exact h hinit
        · exact h0 h
        · omega
      unfold e1000_send_packet at hfail
      rw [if_neg hguard, if_neg hdd] at hfail
      have hfail2 : (data.length : Int) = -1 := hfail
      omega
    · intro hcond
      unfold e1000_send_packet
      rcases hcond with h | h | h
      · rw [if_pos (Or.inr (Or.inl h))]
      · rw [if_pos (Or.inr (Or.inr (by omega)))]
      · by_cases hlen : ¬ s.initialized ∨ data.length = 0 ∨ data.length > E1000_BUFFER_SIZE
        · rw [if_pos hlen]
        · rw [if_neg hlen, if_pos h]
  · intro hok
    push_neg at hok
    obtain ⟨h0, h2048, hdd⟩ := hok
    have hguard : ¬ (¬ s.initialized ∨ data.length = 0 ∨ data.length > E1000_BUFFER_SIZE) := by
      rintro (h | h | h)
      · exact h hinit
      · exact h0 h
      · omega
    have hrun : e1000_send_packet s data = ((data.length : Int),
        { s with
          txBuffers := fun i => if i = s.txCur then
              (fun o => if o < data.length then data.getD o 0 else s.txBuffers s.txCur o)
            else s.txBuffers i
          txDesc := fun i => if i = s.txCur then
              { s.txDesc s.txCur with
                length := data.length
                cmd := E1000_TXD_CMD_EOP ||| E1000_TXD_CMD_IFCS ||| E1000_TXD_CMD_RS
                status := 0 }
            else s.txDesc i
          txCur := (s.txCur + 1) % E1000_NUM_TX_DESC
          regWrites := s.regWrites ++ [(E1000_TDT, (s.txCur + 1) % E1000_NUM_TX_DESC)] }) := by
      unfold e1000_send_packet
      rw [if_neg hguard, if_neg hdd]
    refine ⟨⟨by rw [hrun], ?_, ?_, ?_, ?_, ?_, ?_⟩, ?_⟩
    · rw [hrun]; simp
    · rw [hrun]; simp; decide
    · rw [hrun]; simp
    · intro o ho
      rw [hrun]; simp [ho]
    · rw [hrun]; rfl
    · rw [hrun]; rfl
    · intro i hi
      rw [hrun]; simp [hi]

/-- Helper: a byte swap always produces a 16-bit value. -/
theorem bswap16_lt (v : Nat) : bswap16 v < 65536 := by
  unfold bswap16
  omega

/-- Helper: the byte swap is an involution on 16-bit values. -/
theorem bswap16_bswap16 (v : Nat) (h : v < 65536) : bswap16 (bswap16 v) = v := by
  unfold bswap16
  have hv2 : v / 256 % 256 = v / 256 := Nat.mod_eq_of_lt (by omega)
  rw [hv2]
  have ha : (v % 256 * 256 + v / 256) % 256 = v / 256 := by
    rw [Nat.add_comm, Nat.add_mul_mod_self_right]
    exact Nat.mod_eq_of_lt (by omega)
  have hb : (v % 256 * 256 + v / 256) / 256 = v % 256 := by
    rw [Nat.add_comm, Nat.add_mul_div_right _ _ (by omega : (0 : Nat) < 256)]
    have h0 : v / 256 / 256 = 0 := Nat.div_eq_of_lt (by omega)
    omega
  rw [ha, hb]
  have hc : v % 256 % 256 = v % 256 := Nat.mod_mod_of_dvd v dvd_rfl
  omega

/-- Helper: the echo-reply message built with data length 0 is the bare
8-byte header, written out byte for byte. -/
theorem icmp_send_echo_reply_msg_zero (identifier sequence : Nat) (data : List Nat) :
    icmp_send_echo_reply_msg identifier sequence data 0 =
      [0, 0,
       icmp_checksum [0, 0, 0, 0, bswap16 (identifier % 65536) % 256,
         bswap16 (identifier % 65536) / 256, bswap16 (sequence % 65536) % 256,
         bswap16 (sequence % 65536) / 256] 8 % 256,
       icmp_checksum [0, 0, 0, 0, bswap16 (identifier % 65536) % 256,
         bswap16 (identifier % 65536) / 256, bswap16 (sequence % 65536) % 256,
         bswap16 (sequence % 65536) / 256] 8 / 256,
       bswap16 (identifier % 65536) % 256, bswap16 (identifier % 65536) / 256,
       bswap16 (sequence % 65536) % 256, bswap16 (sequence % 65536) / 256] := by
  unfold icmp_send_echo_reply_msg
  simp

/-- Helper: reading back the identifier word of an echo reply built with
data length 0 returns the truncated identifier it was built from. -/
theorem rd16_echo_reply_4 (identifier sequence : Nat) (data : List Nat) :
    rd16 (icmp_send_echo_reply_msg identifier sequence data 0) 4 =
      bswap16 (identifier % 65536) := by
  rw [icmp_send_echo_reply_msg_zero]
  unfold rd16
  have h := bswap16_lt (identifier % 65536)
  simp only [List.getD]
  simp
  omega

/-- Helper: reading back the sequence word of an echo reply built with
data length 0 returns the truncated sequence it was built from. -/
theorem rd16_echo_reply_6 (identifier sequence : Nat) (data : List Nat) :
    rd16 (icmp_send_echo_reply_msg identifier sequence data 0) 6 =
      bswap16 (sequence % 65536) := by
  rw [icmp_send_echo_reply_msg_zero]
  unfold rd16
  have h := bswap16_lt (sequence % 65536)
  simp only [List.getD]
  simp
  omega

/-- C4 counterexample.  The concrete echo request
`[8, 0, 247, 255, 0, 0, 0, 0, 171]` (type 8, stored checksum 0xFFF7, one
payload byte 0xAB) has an invalid one's-complement checksum over the
entire 9-byte ICMP message, yet `icmp_process_packet` accepts it — the
code only checksums the 8-byte header — and the echo reply it emits
carries an empty payload, not the request's `[171]`. -/
theorem icmp_process_packet_counterexample :
    icmp_process_packet 5 [8, 0, 247, 255, 0, 0, 0, 0, 171] =
      IcmpAction.reply 5 [0, 0, 255, 255, 0, 0, 0, 0] ∧
    rd16 [8, 0, 247, 255, 0, 0, 0, 0, 171] 2 ≠
      icmp_checksum (([8, 0, 247, 255, 0, 0, 0, 0, 171].set 2 0).set 3 0) 9 ∧
    [0, 0, 255, 255, 0, 0, 0, 0].drop 8 ≠ [8, 0, 247, 255, 0, 0, 0, 0, 171].drop 8 := by
  decide

/-- C4 amended.  For every received ICMP packet the code validates the
one's-complement checksum over the 8-byte ICMP header only (a mismatch
with the stored checksum drops the packet), and on an echo request that
passes this check it emits an echo reply whose identifier and sequence
number equal those of the request and whose payload is empty (the reply
is sent with data length 0). -/
theorem icmp_process_packet_spec (src : Nat) (msg : List Nat) :
    (rd16 msg 2 ≠ icmp_checksum ((msg.set 2 0).set 3 0) 8 →
      icmp_process_packet src msg = IcmpAction.drop) ∧
    (rd16 msg 2 = icmp_checksum ((msg.set 2 0).set 3 0) 8 →
      msg.getD 0 0 = ICMP_ECHO_REQUEST →
      icmp_process_packet src msg =
        IcmpAction.reply src
          (icmp_send_echo_reply_msg (bswap16 (rd16 msg 4)) (bswap16 (rd16 msg 6))
            (msg.drop 8) 0) ∧
      rd16 (icmp_send_echo_reply_msg (bswap16 (rd16 msg 4)) (bswap16 (rd16 msg 6))
        (msg.drop 8) 0) 4 = rd16 msg 4 ∧
      rd16 (icmp_send_echo_reply_msg (bswap16 (rd16 msg 4)) (bswap16 (rd16 msg 6))
        (msg.drop 8) 0) 6 = rd16 msg 6 ∧
      (icmp_send_echo_reply_msg (bswap16 (rd16 msg 4)) (bswap16 (rd16 msg 6))
        (msg.drop 8) 0).drop 8 = [] ∧
      (icmp_send_echo_reply_msg (bswap16 (rd16 msg 4)) (bswap16 (rd16 msg 6))
        (msg.drop 8) 0).getD 0 0 = ICMP_ECHO_REPLY) := by
  constructor
  · intro hbad
    unfold icmp_process_packet
    rw [if_pos hbad]
  · intro hok htype
    have hrd4 : rd16 msg 4 < 65536 := by unfold rd16; omega
    have hrd6 : rd16 msg 6 < 65536 := by unfold rd16; omega
    have hmsg : icmp_process_packet src msg =
        IcmpAction.reply src
          (icmp_send_echo_reply_msg (bswap16 (rd16 msg 4)) (bswap16 (rd16 msg 6))
            (msg.drop 8) 0) := by
      unfold icmp_process_packet
      rw [if_neg (by simpa using hok), htype, if_pos rfl]
    refine ⟨hmsg, ?_, ?_, ?_, ?_⟩
    · rw [rd16_echo_reply_4]
      rw [Nat.mod_eq_of_lt (bswap16_lt _)]
      exact bswap16_bswap16 _ hrd4
    · rw [rd16_echo_reply_6]
      rw [Nat.mod_eq_of_lt (bswap16_lt _)]
      exact bswap16_bswap16 _ hrd6
    · rw [icmp_send_echo_reply_msg_zero]
      rfl
    · rw [icmp_send_echo_reply_msg_zero]
      rfl

/-- Closed witness for `icmp_process_packet_spec`: the valid 8-byte echo
request `[8, 0, 247, 255, 0, 0, 0, 0]` produces the echo reply
`[0, 0, 255, 255, 0, 0, 0, 0]`. -/
theorem icmp_process_packet_spec_witness :
    icmp_process_packet 9 [8, 0, 247, 255, 0, 0, 0, 0] =
      IcmpAction.reply 9
        (icmp_send_echo_reply_msg (bswap16 (rd16 [8, 0, 247, 255, 0, 0, 0, 0] 4))
          (bswap16 (rd16 [8, 0, 247, 255, 0, 0, 0, 0] 6))
          ([8, 0, 247, 255, 0, 0, 0, 0].drop 8) 0) :=
  (((icmp_process_packet_spec 9 [8, 0, 247, 255, 0, 0, 0, 0]).2 (by decide) (by decide)).1)

/-- Helper for C8: a run of the ping loop in which no probe ever sees a
reply from `dest` changes only the `sent` counter of the accumulated
result. -/
theorem icmp_ping_fold_no_reply (dest : Nat) (probes : List PingProbe) (r : PingResult)
    (h : ∀ pr ∈ probes, ∀ src rtt, pr.reply = some (src, rtt) → src ≠ dest) :
    (probes.foldl (icmp_ping_step dest) r).received = r.received ∧
    (probes.foldl (icmp_ping_step dest) r).min_time = r.min_time ∧
    (probes.foldl (icmp_ping_step dest) r).max_time = r.max_time ∧
    (probes.foldl (icmp_ping_step dest) r).total_time = r.total_time := by
  induction probes generalizing r with
  | nil => exact ⟨rfl, rfl, rfl, rfl⟩
  | cons pr ps ih =>
    have hstep : (icmp_ping_step dest r pr).received = r.received ∧
        (icmp_ping_step dest r pr).min_time = r.min_time ∧
        (icmp_ping_step dest r pr).max_time = r.max_time ∧
        (icmp_ping_step dest r pr).total_time = r.total_time := by
      unfold icmp_ping_step
      by_cases hs : pr.sendOk = true
      · rw [if_neg (by simp [hs])]
        rcases hr : pr.reply with _ | ⟨src, rtt⟩
        · exact ⟨rfl, rfl, rfl, rfl⟩
        · have hne : src ≠ dest := h pr (List.mem_cons_self pr ps) src rtt hr
          simp only [if_neg hne]
          simp
      · rw [if_pos hs]
        exact ⟨rfl, rfl, rfl, rfl⟩
    have hrest := ih (icmp_ping_step dest r pr)
      (fun q hq => h q (List.mem_cons_of_mem pr hq))
    simp only [List.foldl_cons]
    exact ⟨hrest.1.trans hstep.1, hrest.2.1.trans hstep.2.1,
      hrest.2.2.1.trans hstep.2.2.1, hrest.2.2.2.trans hstep.2.2.2⟩

/-- C8 counterexample.  A single-probe ping whose echo request is sent
but never answered returns `received = 0` but `min_time = 0xFFFFFFFF`
(the initial sentinel), not 0 as the claim states. -/
theorem icmp_ping_min_time_counterexample :
    (icmp_ping 5 [⟨true, none⟩]).received = 0 ∧
    (icmp_ping 5 [⟨true, none⟩]).min_time ≠ 0 := by
  decide

/-- C8 amended.  For every `ping(dest, count)` run in which no echo
reply from `dest` ever arrives, the returned result has `received = 0`,
`total_time = 0` and `max_time = 0`, while `min_time` keeps its
initialisation value `0xFFFFFFFF`. -/
theorem icmp_ping_no_reply_result (dest : Nat) (probes : List PingProbe)
    (h : ∀ pr ∈ probes, ∀ src rtt, pr.reply = some (src, rtt) → src ≠ dest) :
    (icmp_ping dest probes).received = 0 ∧
    (icmp_ping dest probes).total_time = 0 ∧
    (icmp_ping dest probes).max_time = 0 ∧
    (icmp_ping dest probes).min_time = 0xFFFFFFFF := by
  have hf := icmp_ping_fold_no_reply dest probes ⟨0, 0, 0xFFFFFFFF, 0, 0⟩ h
  exact ⟨hf.1, hf.2.2.2, hf.2.2.1, hf.2.1⟩

/-- Closed witness for `icmp_ping_no_reply_result`: two probes, the
first unanswered and the second answered by a different host (source 7,
destination 5). -/
theorem icmp_ping_no_reply_result_witness :
    (icmp_ping 5 [⟨true, none⟩, ⟨true, some (7, 3)⟩]).received = 0 :=
  (icmp_ping_no_reply_result 5 [⟨true, none⟩, ⟨true, some (7, 3)⟩]
    (by
      intro pr hpr src rtt hr
      fin_cases hpr
      · simp at hr
      · simp at hr
        omega)).1

/-- Helper: the ARP request payload is 28 bytes long. -/
theorem arp_request_payload_length (iface : NetIface) (target_ip : Nat) :
    (arp_request_payload iface target_ip).length = 28 := by
  simp [arp_request_payload, be32]

/-- Helper: running `arp_send_request` appends exactly one broadcast ARP
frame (the 28-byte request padded to the 46-byte minimum payload). -/
theorem arp_send_request_run (s : NetState) (iface : NetIface) (target_ip : Nat) :
    arp_send_request s iface target_ip =
      (NET_SUCCESS, { s with frames := s.frames ++
        [⟨[255, 255, 255, 255, 255, 255], ETH_TYPE_ARP,
          arp_request_payload iface target_ip ++ List.replicate 18 0⟩] }) := by
  have hPlen := arp_request_payload_length iface target_ip
  have hPne : arp_request_payload iface target_ip ≠ [] := by
    intro h
    rw [h] at hPlen
    simp at hPlen
  unfold arp_send_request ethernet_send_frame
  rw [if_neg hPne, if_neg (by rw [hPlen]; decide), if_pos (by rw [hPlen]; decide), hPlen]
  rfl

/-- Helper: every frame present after `ethernet_send_frame` was either
already in the log or carries the ethertype just sent. -/
theorem ethernet_send_frame_frames (s : NetState) (iface : NetIface) (destMac : List Nat)
    (ethertype : Nat) (payload : List Nat) :
    ∀ f ∈ (ethernet_send_frame s iface destMac ethertype payload).2.frames,
      f ∈ s.frames ∨ f.ethertype = ethertype := by
  intro f hf
  unfold ethernet_send_frame at hf
  split at hf
  · exact Or.inl hf
  · split at hf
    · exact Or.inl hf
    · simp only [List.mem_append, List.mem_singleton] at hf
      rcases hf with h | h
      · exact Or.inl h
      · right
        rw [h]

/-- Helper: `arp_update_entry` never transmits. -/
theorem arp_update_entry_frames (now : Nat) (s : NetState) (ip : Nat) (mac : List Nat) :
    (arp_update_entry now s ip mac).frames = s.frames := by
  unfold arp_update_entry
  split
  · rfl
  · unfold arp_add_entry
    split <;> rfl

/-- Helper: processing a received ARP packet (request or reply) can only
ever emit ARP frames; in particular it never transmits an IP frame. -/
theorem arp_process_packet_frames (now : Nat) (s : NetState) (iface : NetIface)
    (hdr : ArpPacketIn) :
    ∀ f ∈ (arp_process_packet now s iface hdr).frames,
      f ∈ s.frames ∨ f.ethertype = ETH_TYPE_ARP := by
  intro f hf
  unfold arp_process_packet at hf
  dsimp only at hf
  have h1 := arp_update_entry_frames now s (bswap32 (hdr.sender_ip % 2 ^ 32)) hdr.sender_mac
  split at hf
  · split at hf
    · have := ethernet_send_frame_frames
        (arp_update_entry now s (bswap32 (hdr.sender_ip % 2 ^ 32)) hdr.sender_mac) iface
        hdr.sender_mac ETH_TYPE_ARP
        (arp_reply_payload iface (bswap32 (hdr.sender_ip % 2 ^ 32)) hdr.sender_mac) f hf
      rcases this with h | h
      · exact Or.inl (h1 ▸ h)
      · exact Or.inr h
    · exact Or.inl (h1 ▸ hf)
  · exact Or.inl (h1 ▸ hf)

/-- C9.  For every call to `ip_send_packet` whose destination is not the
limited broadcast and has no ARP cache entry, the function transmits
only an ARP request (one broadcast frame with the ARP ethertype),
returns `NET_TIMEOUT`, and drops the IP packet: the resulting state
differs from the input state only in the bumped IP identification and
the single appended ARP frame (there is no queue), and a later received
ARP reply is processed by `arp_process_packet`, which can emit only ARP
frames, so the dropped packet is never transmitted. -/
theorem ip_send_packet_drops_on_arp_miss (s : NetState) (iface : NetIface)
    (dest protocol : Nat) (payload : List Nat)
    (hne : dest ≠ 0xFFFFFFFF) (hmiss : arp_lookup s dest = none)
    (hp1 : payload ≠ []) (hp2 : payload.length ≤ 1480) :
    (ip_send_packet s iface dest protocol payload).1 = NET_TIMEOUT ∧
    (ip_send_packet s iface dest protocol payload).2.frames =
      s.frames ++ [⟨[255, 255, 255, 255, 255, 255], ETH_TYPE_ARP,
        arp_request_payload iface dest ++ List.replicate 18 0⟩] ∧
    (ip_send_packet s iface dest protocol payload).2.arpTable = s.arpTable ∧
    (ip_send_packet s iface dest protocol payload).2.ipIdent = (s.ipIdent + 1) % 65536 ∧
    (∀ now s2 iface2 hdr, ∀ f ∈ (arp_process_packet now s2 iface2 hdr).frames,
      f ∈ s2.frames ∨ f.ethertype = ETH_TYPE_ARP) := by
  have hmiss1 : arp_lookup { s with ipIdent := (s.ipIdent + 1) % 65536 } dest = none := hmiss
  have hrun : ip_send_packet s iface dest protocol payload =
      (NET_TIMEOUT,
        (arp_send_request { s with ipIdent := (s.ipIdent + 1) % 65536 } iface dest).2) := by
    unfold ip_send_packet
    rw [if_neg hp1, if_neg (by show ¬ payload.length > IP_PACKET_SIZE - IP_HEADER_LEN
                               unfold IP_PACKET_SIZE IP_HEADER_LEN
                               omega),
        if_neg hne, hmiss1]
  rw [hrun, arp_send_request_run]
  exact ⟨rfl, rfl, rfl, rfl, fun now s2 iface2 hdr => arp_process_packet_frames now s2 iface2 hdr⟩

/-- Closed witness for `ip_send_packet_drops_on_arp_miss`: sending one
byte to 10.0.2.2 with an empty ARP table returns `NET_TIMEOUT`. -/
theorem ip_send_packet_drops_on_arp_miss_witness :
    (ip_send_packet ⟨fun _ => ⟨0, [], 0, false⟩, 0, 1, []⟩ ⟨[82, 84, 0, 18, 52, 86], 0, 0, 0⟩
      0x0A000202 17 [65]).1 = NET_TIMEOUT :=
  (ip_send_packet_drops_on_arp_miss ⟨fun _ => ⟨0, [], 0, false⟩, 0, 1, []⟩
    ⟨[82, 84, 0, 18, 52, 86], 0, 0, 0⟩ 0x0A000202 17 [65]
    (by decide) (by decide) (by decide) (by decide)).1

/-- C2 counterexample.  In a state with seven static PDP tables already
used, the static PD pool exhausted, and no free frames, mapping virtual
0 to physical 0 fails (the PD-level allocation finds nothing), but the
PML4 entry 0 that the walker created on the way — linking the freshly
allocated eighth static PDP table — is left behind: the page-table
structure is not restored, so a partial commit is externally visible. -/
theorem vmm_map_page_no_rollback_counterexample :
    (vmm_map_page ⟨fun _ _ => 0, 7, 16, 8, []⟩ 0 0 3).1 = false ∧
    (vmm_map_page ⟨fun _ _ => 0, 7, 16, 8, []⟩ 0 0 3).2.tables static_pml4_addr 0 ≠ 0 := by
  decide

/-- C2 amended.  A frame-allocation failure during the page-table walk
makes `vmm_map_page` return failure, but the entries created at earlier
levels of the failed walk are not rolled back (see the counterexample);
when the failure happens at the first level — here: the static PDP pool
exhausted and the frame allocator empty — the call returns `false` with
the state completely unchanged. -/
theorem vmm_map_page_alloc_failure (s : VmmState)
    (virtual_addr physical_addr flags : Nat)
    (hpdp : 8 ≤ s.staticPdpUsed) (hff : s.freeFrames = [])
    (hv : virtual_addr % PAGE_SIZE = 0) (hp : physical_addr % PAGE_SIZE = 0) :
    vmm_map_page s virtual_addr physical_addr flags = (false, s) := by
  have hwalk : vmm_get_or_create_table s static_pml4_addr (virtual_addr / 2 ^ 39 % 512)
      (PTE_PRESENT ||| PTE_WRITABLE ||| (flags &&& PTE_USER)) = (none, s) := by
    unfold vmm_get_or_create_table
    rw [if_neg (by decide),
        if_neg (by have := Nat.mod_lt (virtual_addr / 2 ^ 39) (by decide : (0 : Nat) < 512)
                   omega)]
    dsimp only
    rw [if_neg (by rintro ⟨_, h⟩; exact h rfl),
        if_neg (by rintro ⟨_, h⟩; omega),
        if_neg (by rintro ⟨⟨h, _⟩, _⟩; exact absurd h (by decide)),
        if_neg (by rintro ⟨⟨h, _⟩, _⟩; exact absurd h (by decide))]
    unfold physical_alloc_page
    rw [hff]
  unfold vmm_map_page
  rw [if_neg (by rintro (h | h); exacts [h hv, h hp])]
  dsimp only
  rw [hwalk]

/-- Closed witness for `vmm_map_page_alloc_failure`: with all static
pools used up and no free frames, mapping page 0 fails and leaves the
state untouched. -/
theorem vmm_map_page_alloc_failure_witness :
    vmm_map_page ⟨fun _ _ => 0, 8, 16, 8, []⟩ 0 0 3 =
      (false, ⟨fun _ _ => 0, 8, 16, 8, []⟩) :=
  vmm_map_page_alloc_failure ⟨fun _ _ => 0, 8, 16, 8, []⟩ 0 0 3 (by decide) rfl
    (by decide) (by decide)

/-- C3 counterexample.  A user-mode page fault (error code bit 2 set) at
0xE0000000 with a fresh VMM state: the claim says any user fault must
log and halt, but `handle_mmio_page_fault` never tests the user bit
before mapping — it simply adds PAGE_USER to the flags — so the mapping
succeeds and the handler returns. -/
theorem page_fault_user_fault_returns_counterexample :
    (page_fault_handler ⟨fun _ _ => 0, 0, 0, 0, []⟩ 0xE0000000 4).isReturned = true := by
  decide

/-- C3 amended.  For every page fault, the handler maps the faulting
page (aligned down, identity, flags PRESENT|WRITABLE|PCD|PWT plus USER
for user-mode faults) and returns if and only if the fault address lies
in `[0xE0000000, 0x100000000)` and that `vmm_map_page` call succeeds;
in every other case — address outside the window, or mapping failure —
it logs the decoded cause and halts with interrupts disabled.  Whether
the fault came from user mode does not influence the halt decision,
only the USER flag bit. -/
theorem page_fault_handler_spec (s : VmmState) (fault_addr error_code : Nat) :
    ((page_fault_handler s fault_addr error_code).isReturned = true ↔
      (0xE0000000 ≤ fault_addr ∧ fault_addr < 0x100000000) ∧
      (vmm_map_page s (fault_addr - fault_addr % PAGE_SIZE)
        (fault_addr - fault_addr % PAGE_SIZE) (page_fault_flags error_code)).1 = true) ∧
    (error_code &&& PAGE_FAULT_USER = 0 → page_fault_flags error_code = 27) ∧
    (error_code &&& PAGE_FAULT_USER ≠ 0 → page_fault_flags error_code = 31) := by
  refine ⟨?_, ?_, ?_⟩
  · unfold page_fault_handler handle_mmio_page_fault
    by_cases hw : 0xE0000000 ≤ fault_addr ∧ fault_addr < 0x100000000
    · rw [if_pos hw]
      dsimp only
      rcases hm : vmm_map_page s (fault_addr - fault_addr % PAGE_SIZE)
          (fault_addr - fault_addr % PAGE_SIZE) (page_fault_flags error_code) with ⟨b, s1⟩
      cases b
      · simp [PfOutcome.isReturned, hw]
      · simp [PfOutcome.isReturned, hw]
    · rw [if_neg hw]
      simp [PfOutcome.isReturned, hw]
  · intro h
    unfold page_fault_flags
    dsimp only
    rw [if_neg (fun hne => hne h)]
    decide
  · intro h
    unfold page_fault_flags
    dsimp only
    rw [if_pos h]
    decide

/-- Closed witness for `page_fault_handler_spec`: a kernel-mode fault at
the page-aligned MMIO address 0xE0001000 on a fresh VMM state is
repaired and the handler returns. -/
theorem page_fault_handler_spec_witness :
    (page_fault_handler ⟨fun _ _ => 0, 0, 0, 0, []⟩ 0xE0001000 0).isReturned = true :=
  ((page_fault_handler_spec ⟨fun _ _ => 0, 0, 0, 0, []⟩ 0xE0001000 0).1).mpr
    ⟨by decide, by decide⟩

/-- C6.  `fat16_mount` succeeds only when sector 0 carries the 0x55AA
signature, `bytes_per_sector` is 512, and the derived cluster count lies
in `[4085, 65525)`; and (for a volume with a nonzero
`sectors_per_cluster`, so the cluster count is well defined) any volume
whose cluster count falls outside that range is rejected with a failure
return and the filesystem is left unmounted. -/
theorem fat16_mount_spec (present : Bool) (drive : Nat) (d : Disk) :
    ((fat16_mount present drive d).isSome →
      fat16BootSignatureOk d ∧ fat16BytesPerSector d = 512 ∧
      4085 ≤ fat16TotalClustersOf d ∧ fat16TotalClustersOf d < 65525) ∧
    (1 ≤ d 0 13 →
      ¬ (4085 ≤ fat16TotalClustersOf d ∧ fat16TotalClustersOf d < 65525) →
      fat16_mount present drive d = none ∧
      fat16MountedAfter present drive d = false) := by
  constructor
  · intro hsome
    unfold fat16_mount at hsome
    by_cases hpres : present = true
    · rw [if_neg (by simp [hpres])] at hsome
      by_cases hsig : d 0 510 = 0x55 ∧ d 0 511 = 0xAA
      · rw [if_neg (not_not_intro hsig)] at hsome
        by_cases hbps : rd16d d 0 11 = 512
        · rw [if_neg (not_not_intro hbps)] at hsome
          dsimp only at hsome
          by_cases htc : fat16TotalClustersOf d < 4085 ∨ 65525 ≤ fat16TotalClustersOf d
          · rw [if_pos htc] at hsome
            simp at hsome
          · refine ⟨hsig, hbps, ?_, ?_⟩ <;> omega
        · rw [if_pos hbps] at hsome
          simp at hsome
      · rw [if_pos hsig] at hsome
        simp at hsome
    · rw [if_pos (by simp [hpres])] at hsome
      simp at hsome
  · intro hspc htc
    have hnone : fat16_mount present drive d = none := by
      unfold fat16_mount
      by_cases hpres : present = true
      · rw [if_neg (by simp [hpres])]
        by_cases hsig : d 0 510 = 0x55 ∧ d 0 511 = 0xAA
        · rw [if_neg (not_not_intro hsig)]
          by_cases hbps : rd16d d 0 11 = 512
          · rw [if_neg (not_not_intro hbps)]
            dsimp only
            rw [if_pos (by omega)]
          · rw [if_pos hbps]
        · rw [if_pos hsig]
      · rw [if_pos (by simp [hpres])]
    refine ⟨hnone, ?_⟩
    unfold fat16MountedAfter
    rw [hnone]
    rfl

/-- Closed witness for `fat16_mount_spec`: a disk whose boot sector is
valid but whose geometry yields 0 clusters (every BPB field zero except
signature and sector size) is rejected. -/
theorem fat16_mount_spec_witness :
    fat16_mount true 0
      (fun sec off =>
        if sec = 0 ∧ off = 510 then 0x55
        else if sec = 0 ∧ off = 511 then 0xAA
        else if sec = 0 ∧ off = 12 then 2
        else if sec = 0 ∧ off = 13 then 4 else 0) = none :=
  ((fat16_mount_spec true 0
      (fun sec off =>
        if sec = 0 ∧ off = 510 then 0x55
        else if sec = 0 ∧ off = 511 then 0xAA
        else if sec = 0 ∧ off = 12 then 2
        else if sec = 0 ∧ off = 13 then 4 else 0)).2
    (by decide) (by decide)).1

/-- C1.  Every invocation of the PIT timer interrupt handler increments
the 64-bit monotonic tick counter (modulo 2^64), sends the EOI command
to the master PIC command port, and calls the scheduler tick function:
the resulting state is exactly `scheduler_tick` applied (at the new tick
count) to the state left by the C `timer_irq_handler`. -/
theorem timer_irq_increments_eoi_and_ticks_scheduler (s : KernelState) :
    (pit_interrupt s).ticks = (s.ticks + 1) % 2 ^ 64 ∧
    (pit_interrupt s).portWrites = s.portWrites ++ [(PIC1_COMMAND, PIC_EOI)] ∧
    pit_interrupt s =
      { timer_irq_handler s with
        sched := scheduler_tick (timer_irq_handler s).ticks (timer_irq_handler s).sched } :=
  ⟨rfl, rfl, rfl⟩

/-- Closed witness for `e1000_send_packet_spec`: an initialized driver
state with descriptor-done set on descriptor 0 accepts a 3-byte packet,
returning 3 and advancing the cursor to 1. -/
theorem e1000_send_packet_spec_witness :
    (e1000_send_packet
      ⟨true, fun _ => ⟨0, 0, 0, 0, 1, 0, 0⟩, fun _ _ => 0, 0, []⟩ [1, 2, 3]).1 = 3 :=
  (((e1000_send_packet_spec
      ⟨true, fun _ => ⟨0, 0, 0, 0, 1, 0, 0⟩, fun _ _ => 0, 0, []⟩ [1, 2, 3] rfl).2
    (by decide)).1).1

end Cgos
